/-
Verification of the STMD (Statistical Temperature Molecular Dynamics) update
engine from src/USER-MISC/fix_stmd.cpp, together with the stage gate of the
replica-exchange coordinator declared in src/USER-MISC/temper_stmd.h.

The C++ double arithmetic is embedded as exact real arithmetic over ℝ; the
per-bin arrays Y2, Hist, Htot, PROH are embedded as total functions ℤ → ℝ
(resp. ℤ → ℤ), and every fatal `error->all` path is an `Except.error`.
Each Lean definition mirrors one contiguous block of the C++ source.
-/
import Mathlib

noncomputable section

open scoped Classical
open scoped BigOperators

namespace Stmd

/-- The C library function `round` (round half away from zero), as used in
`round(Emin / bin)` and `round(potE / double(bin))` in fix_stmd.cpp. -/
def cround (x : ℝ) : ℤ :=
  if 0 ≤ x then ⌊x + 1 / 2⌋ else -⌊-x + 1 / 2⌋

/-- The C cast `static_cast<int>(double)`: truncation toward zero. -/
def truncToInt (x : ℝ) : ℤ :=
  if 0 ≤ x then ⌊x⌋ else -⌊-x⌋

/-- Fatal error conditions raised by `error->all` / `error->one` in the source. -/
inductive StmdErr where
  | outOfRange
  | fLessThanUnity
  | restartInvalid

/-- The mutable state of `FixStmd` (fix_stmd.h): the per-bin tables, the stage
machine and its counters, and the configuration constants fixed at init. -/
structure St where
  N : ℤ
  bin : ℝ
  BinMin : ℤ
  T1 : ℝ
  T2 : ℝ
  CTmin : ℝ
  CTmax : ℝ
  HCKtol : ℝ
  pfinFval : ℝ
  finFval : ℝ
  f_flag : ℤ
  TSC1 : ℤ
  TSC2 : ℤ
  Y2 : ℤ → ℝ
  Hist : ℤ → ℤ
  Htot : ℤ → ℤ
  PROH : ℤ → ℤ
  STG : ℤ
  f : ℝ
  df : ℝ
  SWf : ℤ
  SWfold : ℤ
  SWchk : ℤ
  Count : ℤ
  CountH : ℤ
  CountPH : ℤ
  totCi : ℤ
  curbin : ℤ
  T : ℝ
  Gamma : ℝ

/-- Constructor arguments of `FixStmd` relevant to the state (constructor and
`init()` of fix_stmd.cpp). -/
structure Params where
  Emin : ℝ
  Emax : ℝ
  binw : ℝ
  TL : ℝ
  TH : ℝ
  ST : ℝ
  initf : ℝ
  dFval3 : ℝ
  f_flag : ℤ
  TSC1 : ℤ
  TSC2 : ℤ

/-- Fresh (non-restart) initialization: the constructor's bin setup
(`BinMin = round(Emin/bin)`, `N = BinMax - BinMin + 1`) followed by `init()`:
stage 1, unit switch counters, `f = exp(initf*2*bin)`, `df = log(f)*0.5/bin`,
`Y2[i] = T2` and zeroed histograms. -/
def freshInit (p : Params) : St where
  N := cround (p.Emax / p.binw) - cround (p.Emin / p.binw) + 1
  bin := p.binw
  BinMin := cround (p.Emin / p.binw)
  T1 := p.TL / p.ST
  T2 := p.TH / p.ST
  CTmin := (p.TL + 50) / p.ST
  CTmax := (p.TH - 50) / p.ST
  HCKtol := 0.2
  pfinFval := Real.exp (p.dFval3 * 2 * p.binw)
  finFval := Real.exp (p.dFval3 / 10 * 2 * p.binw)
  f_flag := p.f_flag
  TSC1 := p.TSC1
  TSC2 := p.TSC2
  Y2 := fun _ => p.TH / p.ST
  Hist := fun _ => 0
  Htot := fun _ => 0
  PROH := fun _ => 0
  STG := 1
  f := Real.exp (p.initf * 2 * p.binw)
  df := Real.log (Real.exp (p.initf * 2 * p.binw)) * 0.5 / p.binw
  SWf := 1
  SWfold := 1
  SWchk := 1
  Count := 0
  CountH := 0
  CountPH := 0
  totCi := 0
  curbin := 0
  T := p.ST
  Gamma := 1

/-- The pure temperature-table update performed by `Yval` (fix_stmd.cpp
lines 664-683) at sampled bin `i`:
`Y2[i+1] = Y2[i+1]/(1 - df*Y2[i+1])`, `Y2[i-1] = Y2[i-1]/(1 + df*Y2[i-1])`,
then `if (Y2[i-1] < T1) Y2[i-1] = T1` and `if (Y2[i+1] > T2) Y2[i+1] = T2`. -/
def yvalUpdate (df T1 T2 : ℝ) (i : ℤ) (Y : ℤ → ℝ) : ℤ → ℝ :=
  let A := Function.update Y (i + 1) (Y (i + 1) / (1 - df * Y (i + 1)))
  let B := Function.update A (i - 1) (A (i - 1) / (1 + df * A (i - 1)))
  let C := if B (i - 1) < T1 then Function.update B (i - 1) T1 else B
  if T2 < C (i + 1) then Function.update C (i + 1) T2 else C

/-- `FixStmd::Yval` (fix_stmd.cpp lines 651-685): compute
`curbin = round(potE/bin) - BinMin + 1`, raise the fatal out-of-range error
when `curbin < 1 || curbin > N-1`, otherwise apply the multiplicative update
to the neighbors of `curbin` and return it. -/
def Yval (s : St) (potE : ℝ) : Except StmdErr (St × ℤ) :=
  let i := cround (potE / s.bin) - s.BinMin + 1
  if i < 1 ∨ s.N - 1 < i then Except.error StmdErr.outOfRange
  else Except.ok
    ({ s with curbin := i, Y2 := yvalUpdate s.df s.T1 s.T2 i s.Y2 }, i)

/-- `FixStmd::GammaE` (fix_stmd.cpp lines 689-707): local linear interpolation
of the statistical temperature at `potE` within bin `indx`, and `Gamma = 1/T`. -/
def gammaE (s : St) (potE : ℝ) (indx : ℤ) : St :=
  let e := potE - (cround (potE / s.bin) : ℝ) * s.bin
  let Tl :=
    if 0 < e then s.Y2 indx + (s.Y2 (indx + 1) - s.Y2 indx) / s.bin * e
    else if e < 0 then s.Y2 indx + (s.Y2 indx - s.Y2 (indx - 1)) / s.bin * e
    else s.Y2 indx
  { s with T := Tl, Gamma := 1 / Tl }

/-- Qualifying bins of `FixStmd::HCHK` (fix_stmd.cpp lines 768-773): indices
`0 <= i < N` with `CTmin < Y2[i] && Y2[i] < CTmax`. -/
def hchkQ (s : St) : Finset ℤ :=
  (Finset.Icc 0 (s.N - 1)).filter fun i => s.CTmin < s.Y2 i ∧ s.Y2 i < s.CTmax

/-- The average histogram `aveH` over the qualifying bins (lines 764-781). -/
def hchkAve (s : St) : ℝ :=
  (∑ i in hchkQ s, (s.Hist i : ℝ)) / ((hchkQ s).card : ℝ)

/-- The count `ichk` of qualifying bins whose relative deviation
`abs((Hist[i] - aveH)/aveH)` exceeds `HCKtol` (lines 783-795). -/
def hchkNumViol (s : St) : ℕ :=
  ((hchkQ s).filter fun i =>
    s.HCKtol < |((s.Hist i : ℝ) - hchkAve s) / hchkAve s|).card

/-- The value of `SWf` after `HCHK`: unchanged when no bin qualifies
(`icnt == 0`, early return) or some bin violates the tolerance, incremented
when `ichk < 1` (line 797). -/
def hchkNewSWf (s : St) : ℤ :=
  if (hchkQ s).card = 0 then s.SWf
  else if hchkNumViol s < 1 then s.SWf + 1 else s.SWf

/-- `FixStmd::HCHK` (fix_stmd.cpp lines 758-798): saves `SWfold = SWf` first,
then possibly increments `SWf`. -/
def HCHK (s : St) : St :=
  { s with SWfold := s.SWf, SWf := hchkNewSWf s }

/-- The caller's flatness-change test `SWfold != SWf` evaluated on the state
returned by `HCHK` (fix_stmd.cpp lines 868, 947). -/
def hchkChanged (s : St) : Prop :=
  (HCHK s).SWfold ≠ (HCHK s).SWf

/-- The scan loop of `FixStmd::dig` (fix_stmd.cpp lines 635-643): starting
from `(nkeepmin, keepmin) = (0, Y2[0])`, for `i = 0..n-1` update the pair
whenever `Y2[i] <= keepmin`; the result is the last index attaining the
minimum, paired with the minimum. -/
def digScan (Y : ℤ → ℝ) : ℕ → ℤ × ℝ
  | 0 => (0, Y 0)
  | n + 1 =>
    let p := digScan Y n
    if Y n ≤ p.2 then ((n : ℤ), Y n) else p

/-- `FixStmd::dig` (fix_stmd.cpp lines 633-647): set `Y2[i] = keepmin` for all
`0 <= i < nkeepmin`. -/
def dig (s : St) : St :=
  let p := digScan s.Y2 s.N.toNat
  { s with Y2 := fun i => if 0 ≤ i ∧ i < p.1 then p.2 else s.Y2 i }

/-- `FixStmd::TCHK` (fix_stmd.cpp lines 747-754): promote to stage 2 when
`Y2[0] == T1` (exact comparison, as in the source). -/
def TCHK (s : St) : St :=
  if s.Y2 0 = s.T1 then { s with STG := 2 } else s

/-- `FixStmd::ResetPH` (fix_stmd.cpp lines 740-743). -/
def resetPH (s : St) : St :=
  { s with Hist := fun _ => 0 }

/-- The `f_flag == 1` branch of the stage-3 block (fix_stmd.cpp lines
860-888): `HCHK`, then on a flatness change `f = sqrt(f)` guarded by
`STG == 3`, `df` recomputation, `SWchk = 1` and a window reset; otherwise
`SWchk++`. -/
def stg3Hchk (s : St) : St :=
  if s.f_flag = 1 then
    if (HCHK s).SWfold ≠ (HCHK s).SWf then
      if (HCHK s).STG = 3 then
        { (HCHK s) with
            f := Real.sqrt (HCHK s).f,
            df := Real.log (Real.sqrt (HCHK s).f) * 0.5 / (HCHK s).bin,
            SWchk := 1, Hist := fun _ => 0, CountH := 0 }
      else
        { (HCHK s) with
            df := Real.log (HCHK s).f * 0.5 / (HCHK s).bin,
            SWchk := 1, Hist := fun _ => 0, CountH := 0 }
    else { (HCHK s) with SWchk := (HCHK s).SWchk + 1 }
  else s

/-- The `f_flag > 1` branch of the stage-3 block (fix_stmd.cpp lines
890-906): `f = sqrt(f)` guarded by `STG == 3`, `df` recomputation, window
reset. -/
def stg3Uncond (s : St) : St :=
  if 1 < s.f_flag then
    if s.STG = 3 then
      { s with f := Real.sqrt s.f,
               df := Real.log (Real.sqrt s.f) * 0.5 / s.bin,
               Hist := fun _ => 0, CountH := 0 }
    else
      { s with df := Real.log s.f * 0.5 / s.bin,
               Hist := fun _ => 0, CountH := 0 }
  else s

/-- The `if (STG >= 3)` maintenance block of `FixStmd::MAIN` (fix_stmd.cpp
lines 849-919): every `TSC2` steps run the selected f-reduction, then
promote to stage 4 when `f <= finFval`. -/
def stg3Block (s : St) (istep : ℤ) : St :=
  if 3 ≤ s.STG then
    if istep % s.TSC2 = 0 then
      if (stg3Uncond (stg3Hchk s)).f ≤ (stg3Uncond (stg3Hchk s)).finFval then
        { (stg3Uncond (stg3Hchk s)) with STG := 4 }
      else stg3Uncond (stg3Hchk s)
    else s
  else s

/-- The `if (f_flag == 0)` scheme of the stage-2 block (fix_stmd.cpp lines
934-937): window reset only. -/
def stg2Flag0 (s : St) : St :=
  if s.f_flag = 0 then { s with Hist := fun _ => 0, CountH := 0 } else s

/-- The body of the `if (f_flag == 1)` scheme of the stage-2 block before
its promotion test (fix_stmd.cpp lines 941-958): `HCHK`, then on a flatness
change `f = sqrt(f)`, `df` recomputation, `SWchk = 1` and a window reset;
otherwise `SWchk++`. -/
def stg2Flag1Update (s : St) : St :=
  if (HCHK s).SWfold ≠ (HCHK s).SWf then
    { (HCHK s) with
        f := Real.sqrt (HCHK s).f,
        df := Real.log (Real.sqrt (HCHK s).f) * 0.5 / (HCHK s).bin,
        SWchk := 1, Hist := fun _ => 0, CountH := 0 }
  else { (HCHK s) with SWchk := (HCHK s).SWchk + 1 }

/-- The `if (f_flag == 1)` scheme of the stage-2 block (fix_stmd.cpp lines
940-972): the HCHK-driven update, then promotion to stage 3 when
`f <= pfinFval`, which zeroes `CountPH`, sets `SWchk = 1` and resets the
window. -/
def stg2Flag1 (s : St) : St :=
  if s.f_flag = 1 then
    if (stg2Flag1Update s).f ≤ (stg2Flag1Update s).pfinFval then
      { (stg2Flag1Update s) with
          STG := 3, CountPH := 0, SWchk := 1,
          Hist := fun _ => 0, CountH := 0 }
    else stg2Flag1Update s
  else s

/-- The `if (f_flag == 2)` scheme of the stage-2 block (fix_stmd.cpp lines
975-984): `f = sqrt(f)` (except at step 0), `df` recomputation, window
reset. -/
def stg2Flag2 (s : St) (istep : ℤ) : St :=
  if s.f_flag = 2 then
    if istep ≠ 0 then
      { s with f := Real.sqrt s.f,
               df := Real.log (Real.sqrt s.f) * 0.5 / s.bin,
               Hist := fun _ => 0, CountH := 0 }
    else { s with Hist := fun _ => 0, CountH := 0 }
  else s

/-- The `if (f_flag == 3)` scheme of the stage-2 block (fix_stmd.cpp lines
988-998): constant relative reduction while `f > 1.2`, else `f = sqrt(f)`
(except at step 0); `df` recomputation and window reset always. -/
def stg2Flag3 (s : St) (istep : ℤ) : St :=
  if s.f_flag = 3 then
    if istep ≠ 0 then
      if 1 + 2 * (0.1 : ℝ) < s.f then
        { s with f := s.f - 0.1 * s.f,
                 df := Real.log (s.f - 0.1 * s.f) * 0.5 / s.bin,
                 Hist := fun _ => 0, CountH := 0 }
      else
        { s with f := Real.sqrt s.f,
                 df := Real.log (Real.sqrt s.f) * 0.5 / s.bin,
                 Hist := fun _ => 0, CountH := 0 }
    else { s with df := Real.log s.f * 0.5 / s.bin,
                  Hist := fun _ => 0, CountH := 0 }
  else s

/-- The `if (f_flag == 4)` scheme of the stage-2 block (fix_stmd.cpp lines
1001-1007): `df` reduced by 1 percent, `f = exp(2*bin*df)` (except at step
0); no window reset. -/
def stg2Flag4 (s : St) (istep : ℤ) : St :=
  if s.f_flag = 4 then
    if istep ≠ 0 then
      { s with df := s.df - s.df * 0.01,
               f := Real.exp (2 * s.bin * (s.df - s.df * 0.01)) }
    else s
  else s

/-- The sequential composition of the `f_flag` scheme blocks of the stage-2
maintenance (fix_stmd.cpp lines 933-1007, in source order). -/
def stg2Scheme (s : St) (istep : ℤ) : St :=
  stg2Flag4 (stg2Flag3 (stg2Flag2 (stg2Flag1 (stg2Flag0 s)) istep) istep) istep

/-- The `if (STG == 2)` maintenance block of `FixStmd::MAIN` (fix_stmd.cpp
lines 924-1023): every `TSC2` steps apply the sequential `f_flag` scheme
blocks, raise the fatal error when `f <= 1.0` (line 1009), and promote to
stage 3 with `CountPH = 0` when `f <= pfinFval && f_flag > 1` (lines
1017-1020). -/
def stg2Block (s : St) (istep : ℤ) : Except StmdErr St :=
  if s.STG = 2 then
    if istep % s.TSC2 = 0 then
      if (stg2Scheme s istep).f ≤ 1 then Except.error StmdErr.fLessThanUnity
      else if (stg2Scheme s istep).f ≤ (stg2Scheme s istep).pfinFval ∧
          1 < (stg2Scheme s istep).f_flag then
        Except.ok { (stg2Scheme s istep) with STG := 3, CountPH := 0 }
      else Except.ok (stg2Scheme s istep)
    else Except.ok s
  else Except.ok s

/-- The `if (STG == 1)` maintenance block of `FixStmd::MAIN` (fix_stmd.cpp
lines 1027-1044): every `TSC1` steps run `dig` and `TCHK`, and reset the
window histogram if the stage advanced. -/
def stg1Block (s : St) (istep : ℤ) : St :=
  if s.STG = 1 then
    if istep % s.TSC1 = 0 then
      if 1 < (TCHK (dig s)).STG then
        { (TCHK (dig s)) with Hist := fun _ => 0, CountH := 0 }
      else TCHK (dig s)
    else s
  else s

/-- The entry of `FixStmd::MAIN` (fix_stmd.cpp lines 804-807):
`Count = istep; totCi++; if (STG >= 3) CountPH++;`. -/
def preMAIN (s : St) (istep : ℤ) : St :=
  if 3 ≤ s.STG then
    { s with Count := istep, totCi := s.totCi + 1, CountPH := s.CountPH + 1 }
  else { s with Count := istep, totCi := s.totCi + 1 }

/-- The histogram-recording phase of `FixStmd::MAIN` (lines 820-837) after a
successful `Yval` returning bin `i`: `GammaE`, `AddedEHis` (lines 711-715),
`CountH++`, and for stages >= 3 (the stage is not modified by these
updates) also `PROH[i]++; CountPH++;`. -/
def histPhase (s : St) (potE : ℝ) (i : ℤ) : St :=
  if 3 ≤ s.STG then
    { (gammaE s potE i) with
        Hist := Function.update (gammaE s potE i).Hist i
          ((gammaE s potE i).Hist i + 1),
        Htot := Function.update (gammaE s potE i).Htot i
          ((gammaE s potE i).Htot i + 1),
        CountH := (gammaE s potE i).CountH + 1,
        PROH := Function.update (gammaE s potE i).PROH i
          ((gammaE s potE i).PROH i + 1),
        CountPH := (gammaE s potE i).CountPH + 1 }
  else
    { (gammaE s potE i) with
        Hist := Function.update (gammaE s potE i).Hist i
          ((gammaE s potE i).Hist i + 1),
        Htot := Function.update (gammaE s potE i).Htot i
          ((gammaE s potE i).Htot i + 1),
        CountH := (gammaE s potE i).CountH + 1 }

/-- `FixStmd::MAIN` (fix_stmd.cpp lines 802-1050), one MD step: counter entry,
`Yval` (fatal when out of range), `GammaE`, histogram recording, then the
stage-3, stage-2 and stage-1 maintenance blocks in source order. -/
def MAIN (s : St) (istep : ℤ) (potE : ℝ) : Except StmdErr St :=
  match Yval (preMAIN s istep) potE with
  | Except.error e => Except.error e
  | Except.ok (t, i) =>
    match stg2Block (stg3Block (histPhase t potE i) istep) istep with
    | Except.error e => Except.error e
    | Except.ok u => Except.ok (stg1Block u istep)

/-- The 13 scalars written first to the restart blob by
`FixStmd::write_orest` (fix_stmd.cpp lines 532-551), in write order:
`STG, f, CountH, SWf, SWfold, SWchk, Count, totCi, CountPH, T1, T2, CTmin,
CTmax`. -/
def orestScalars (s : St) : List ℝ :=
  [(s.STG : ℝ), s.f, (s.CountH : ℝ), (s.SWf : ℝ), (s.SWfold : ℝ),
   (s.SWchk : ℝ), (s.Count : ℝ), (s.totCi : ℝ), (s.CountPH : ℝ),
   s.T1, s.T2, s.CTmin, s.CTmax]

/-- The list of values written to the restart blob by `FixStmd::write_orest`
(fix_stmd.cpp lines 532-558), in write order: the 13 scalars followed by
`Y2[0..N-1]`, `Htot[0..N-1]`, `PROH[0..N-1]`. -/
def orestList (s : St) : List ℝ :=
  orestScalars s
  ++ (((List.range s.N.toNat).map fun k : ℕ => s.Y2 (k : ℤ))
    ++ (((List.range s.N.toNat).map fun k : ℕ => ((s.Htot (k : ℤ) : ℤ) : ℝ))
      ++ ((List.range s.N.toNat).map fun k : ℕ => ((s.PROH (k : ℤ) : ℤ) : ℝ))))

/-- The restart branch of `FixStmd::init` (fix_stmd.cpp lines 336-392): on a
state `t` freshly initialized from the input parameters, validate that the
blob holds at least `3N + 13` values, then overwrite `STG, f, CountH, SWf,
SWfold, SWchk, Count, totCi, CountPH, T1, T2, CTmin, CTmax`, the `Y2`,
`Htot` and `PROH` tables, and recompute `df = log(f)*0.5/bin`. `Hist` is not
read and stays at its zero-initialized value. -/
def readOrest (t : St) (l : List ℝ) : Except StmdErr St :=
  if l.length < 3 * t.N.toNat + 13 then Except.error StmdErr.restartInvalid
  else Except.ok
    { t with
      STG := truncToInt (l.getD 0 0)
      f := l.getD 1 0
      df := Real.log (l.getD 1 0) * 0.5 / t.bin
      CountH := truncToInt (l.getD 2 0)
      SWf := truncToInt (l.getD 3 0)
      SWfold := truncToInt (l.getD 4 0)
      SWchk := truncToInt (l.getD 5 0)
      Count := truncToInt (l.getD 6 0)
      totCi := truncToInt (l.getD 7 0)
      CountPH := truncToInt (l.getD 8 0)
      T1 := l.getD 9 0
      T2 := l.getD 10 0
      CTmin := l.getD 11 0
      CTmax := l.getD 12 0
      Y2 := fun i => if 0 ≤ i ∧ i < t.N then l.getD (13 + i.toNat) 0 else t.Y2 i
      Htot := fun i => if 0 ≤ i ∧ i < t.N then
          truncToInt (l.getD (13 + t.N.toNat + i.toNat) 0) else t.Htot i
      PROH := fun i => if 0 ≤ i ∧ i < t.N then
          truncToInt (l.getD (13 + 2 * t.N.toNat + i.toNat) 0) else t.PROH i }

/-- Modelled from the spec: the acceptance rule of the replica-exchange
coordinator `TemperStmd` (its implementation temper_stmd.cpp is not part of
this tree; only the declaration src/USER-MISC/temper_stmd.h is). Following
section 4.3 of the specification, an exchange between walkers `a` and `b` is
admitted only when each walker's energy lies inside the other walker's
window and both walkers report `STG >= 2` (a walker still in stage 1 causes
an automatic reject, per the header's warning `RESTMD still in STAGE1`);
when admitted, the swap happens iff the Metropolis/Boltzmann draw
`boltzOk` succeeds. -/
def temperStmdAccept (STGa STGb : ℤ) (Ua Ub Emina Emaxa Eminb Emaxb : ℝ)
    (boltzOk : Prop) : Prop :=
  ((Emina ≤ Ub ∧ Ub ≤ Emaxa) ∧ (Eminb ≤ Ua ∧ Ua ≤ Emaxb)) ∧
  (2 ≤ STGa ∧ 2 ≤ STGb) ∧ boltzOk

/-- Projection of a `MAIN` result: the stage, or `0` on a fatal error. -/
def getSTG : Except StmdErr St → ℤ
  | Except.ok s => s.STG
  | Except.error _ => 0

/-- Projection of a `MAIN` result: the f value, or `0` on a fatal error. -/
def getF : Except StmdErr St → ℝ
  | Except.ok s => s.f
  | Except.error _ => 0

/-- Projection of a `MAIN` result: `SWchk`, or `0` on a fatal error. -/
def getSWchk : Except StmdErr St → ℤ
  | Except.ok s => s.SWchk
  | Except.error _ => 0

/-- Projection of a `MAIN` result: `CountH`, or `0` on a fatal error. -/
def getCountH : Except StmdErr St → ℤ
  | Except.ok s => s.CountH
  | Except.error _ => 0

/-- Projection of a `MAIN` result: `CountPH`, or `0` on a fatal error. -/
def getCountPH : Except StmdErr St → ℤ
  | Except.ok s => s.CountPH
  | Except.error _ => 0

/-- Projection of a `MAIN` result: the window histogram, or `0` on error. -/
def getHist : Except StmdErr St → ℤ → ℤ
  | Except.ok s => s.Hist
  | Except.error _ => fun _ => 0

/-- Projection of a `MAIN` result: the cumulative histogram, or `0` on error. -/
def getHtot : Except StmdErr St → ℤ → ℤ
  | Except.ok s => s.Htot
  | Except.error _ => fun _ => 0

/-- Projection of a `MAIN` result: the production histogram, or `0` on error. -/
def getPROH : Except StmdErr St → ℤ → ℤ
  | Except.ok s => s.PROH
  | Except.error _ => fun _ => 0

/-- Whether a `Yval` call raised the fatal out-of-range error. -/
def yvalErrored : Except StmdErr (St × ℤ) → Prop
  | Except.ok _ => False
  | Except.error _ => True

/-- The bin index returned by a successful `Yval` call (`-1000` on error). -/
def yvalIndex : Except StmdErr (St × ℤ) → ℤ
  | Except.ok p => p.2
  | Except.error _ => -1000

/-- The bin-lookup formula as the specification words it:
`Bin(U) = round(U/Δ) − round(Emin/Δ)` (spec sections 3 and 4.1), to be
compared against the index actually produced by `Yval`. -/
def specBin (binw Emin U : ℝ) : ℤ :=
  cround (U / binw) - cround (Emin / binw)

/-- Sequential application of the `Yval` table update at a list of sampled
bins (the cumulative effect of a sequence of `MAIN` steps on `Y2`, with the
stage machinery and `df` held fixed). -/
def applyUpdates (df T1 T2 : ℝ) (l : List ℤ) (Y : ℤ → ℝ) : ℤ → ℝ :=
  l.foldl (fun A i => yvalUpdate df T1 T2 i A) Y

theorem cround_eval (x : ℝ) (n : ℤ) (h0 : 0 ≤ x) (h1 : (n : ℝ) ≤ x + 1 / 2)
    (h2 : x + 1 / 2 < (n : ℝ) + 1) : cround x = n := by
  unfold cround
  rw [if_pos h0]
  exact Int.floor_eq_iff.mpr ⟨h1, h2⟩

theorem truncToInt_intCast (n : ℤ) : truncToInt (n : ℝ) = n := by
  unfold truncToInt
  split_ifs with h
  · exact Int.floor_intCast n
  · rw [show (-(n : ℝ)) = ((-n : ℤ) : ℝ) by push_cast; ring, Int.floor_intCast]
    omega

theorem yvalUpdate_apply (df T1 T2 : ℝ) (i : ℤ) (Y : ℤ → ℝ) :
    yvalUpdate df T1 T2 i Y (i + 1) =
      min (Y (i + 1) / (1 - df * Y (i + 1))) T2 ∧
    yvalUpdate df T1 T2 i Y (i - 1) =
      max (Y (i - 1) / (1 + df * Y (i - 1))) T1 ∧
    ∀ j : ℤ, j ≠ i - 1 → j ≠ i + 1 → yvalUpdate df T1 T2 i Y j = Y j := by
  have hne : (i - 1 : ℤ) ≠ i + 1 := by omega
  have hne' : (i + 1 : ℤ) ≠ i - 1 := by omega
  unfold yvalUpdate
  simp only [ite_apply, Function.update_noteq hne, Function.update_noteq hne',
    Function.update_same, ite_self]
  refine ⟨?_, ?_, ?_⟩
  · rw [min_def]
    split_ifs <;> first | rfl | linarith
  · rw [max_def]
    split_ifs <;> first | rfl | linarith
  · intro j hj1 hj2
    simp only [ite_apply, Function.update_noteq hj1, Function.update_noteq hj2,
      ite_self]

theorem yvalUpdate_mem_Icc (df T1 T2 : ℝ) (i : ℤ) (Y : ℤ → ℝ)
    (hT1 : 0 ≤ T1) (hT12 : T1 ≤ T2) (hdf : 0 ≤ df) (hb : df * T2 < 1)
    (hY : ∀ k, T1 ≤ Y k ∧ Y k ≤ T2) (j : ℤ) :
    T1 ≤ yvalUpdate df T1 T2 i Y j ∧ yvalUpdate df T1 T2 i Y j ≤ T2 := by
  obtain ⟨hup, hdown, hframe⟩ := yvalUpdate_apply df T1 T2 i Y
  by_cases hj1 : j = i + 1
  · subst hj1
    rw [hup]
    have hy := hY (i + 1)
    have hy0 : 0 ≤ Y (i + 1) := le_trans hT1 hy.1
    have hd1 : df * Y (i + 1) < 1 :=
      lt_of_le_of_lt (mul_le_mul_of_nonneg_left hy.2 hdf) hb
    have hdpos : 0 < 1 - df * Y (i + 1) := by linarith
    have hdle : 1 - df * Y (i + 1) ≤ 1 := by
      have : 0 ≤ df * Y (i + 1) := mul_nonneg hdf hy0
      linarith
    have hgrow : Y (i + 1) ≤ Y (i + 1) / (1 - df * Y (i + 1)) := by
      rw [le_div_iff₀ hdpos]
      calc Y (i + 1) * (1 - df * Y (i + 1)) ≤ Y (i + 1) * 1 :=
            mul_le_mul_of_nonneg_left hdle hy0
        _ = Y (i + 1) := mul_one _
    constructor
    · exact le_min (le_trans hy.1 hgrow) hT12
    · exact min_le_right _ _
  · by_cases hj2 : j = i - 1
    · subst hj2
      rw [hdown]
      have hy := hY (i - 1)
      have hy0 : 0 ≤ Y (i - 1) := le_trans hT1 hy.1
      have hdge : 1 ≤ 1 + df * Y (i - 1) := by
        have : 0 ≤ df * Y (i - 1) := mul_nonneg hdf hy0
        linarith
      have hshrink : Y (i - 1) / (1 + df * Y (i - 1)) ≤ Y (i - 1) :=
        div_le_self hy0 hdge
      exact ⟨le_max_right _ _, max_le (le_trans hshrink hy.2) hT12⟩
    · rw [hframe j hj2 hj1]
      exact hY j

theorem applyUpdates_mem_Icc (df T1 T2 : ℝ)
    (hT1 : 0 ≤ T1) (hT12 : T1 ≤ T2) (hdf : 0 ≤ df) (hb : df * T2 < 1)
    (l : List ℤ) (Y : ℤ → ℝ) (hY : ∀ k, T1 ≤ Y k ∧ Y k ≤ T2) (j : ℤ) :
    T1 ≤ applyUpdates df T1 T2 l Y j ∧ applyUpdates df T1 T2 l Y j ≤ T2 := by
  induction l generalizing Y with
  | nil => exact hY j
  | cons i rest ih =>
    exact ih (yvalUpdate df T1 T2 i Y)
      (fun k => yvalUpdate_mem_Icc df T1 T2 i Y hT1 hT12 hdf hb hY k)

/-- A concrete `FixStmd` state used to instantiate theorems: 5 bins of width
1 starting at energy 0, scaled temperature bounds `T1 = 1/2`, `T2 = 2`, flat
table `Y2 = 1`, zero histograms, stage 1, `f = 4`, `df = 0`. -/
def baseSt : St where
  N := 5
  bin := 1
  BinMin := 0
  T1 := 1 / 2
  T2 := 2
  CTmin := 0
  CTmax := 10
  HCKtol := 1 / 5
  pfinFval := 3
  finFval := 0
  f_flag := 0
  TSC1 := 10
  TSC2 := 10
  Y2 := fun _ => 1
  Hist := fun _ => 0
  Htot := fun _ => 0
  PROH := fun _ => 0
  STG := 1
  f := 4
  df := 0
  SWf := 0
  SWfold := 0
  SWchk := 5
  Count := 0
  CountH := 0
  CountPH := 0
  totCi := 0
  curbin := 0
  T := 1
  Gamma := 1

theorem cround_zero : cround 0 = 0 :=
  cround_eval 0 0 (by norm_num) (by norm_num) (by norm_num)

theorem cround_two : cround 2 = 2 :=
  cround_eval 2 2 (by norm_num) (by norm_num) (by norm_num)

/-- C1 (amended): for every state whose `BinMin` was set to `round(Emin/Δ)`
by the constructor, the bin lookup at the start of a step computes
`i = round(U/Δ) − round(Emin/Δ) + 1` (one more than the spec's
`round(U/Δ) − BinMinIdx`), and it raises the fatal out-of-range error
exactly when `i ∉ [1, N−1]` (not the spec's `[1, N−2]`); on success the
returned index satisfies `1 ≤ i ≤ N−1`, so the neighbor `i−1` is a valid
table access while `i+1` can reach `N`, one past the last bin. -/
theorem stmd_bin_lookup_amended (s : St) (potE Emin : ℝ)
    (hBM : s.BinMin = cround (Emin / s.bin)) :
    (yvalErrored (Yval s potE) ↔
      (cround (potE / s.bin) - cround (Emin / s.bin) + 1 < 1 ∨
        s.N - 1 < cround (potE / s.bin) - cround (Emin / s.bin) + 1)) ∧
    ∀ s' i, Yval s potE = Except.ok (s', i) →
      i = cround (potE / s.bin) - cround (Emin / s.bin) + 1 ∧
      1 ≤ i ∧ i ≤ s.N - 1 := by
  rw [← hBM]
  unfold Yval
  dsimp only
  split_ifs with hc
  · refine ⟨by simpa [yvalErrored] using hc, ?_⟩
    intro s' i h
    exact absurd h (by simp)
  · refine ⟨by simp [yvalErrored]; omega, ?_⟩
    intro s' i h
    rw [Except.ok.injEq, Prod.mk.injEq] at h
    refine ⟨h.2.symm, by omega, by omega⟩

/-- C1 witness: at `U = 2` on `baseSt` (5 bins, `Δ = 1`, `Emin = 0`) the
amended lookup description holds. -/
theorem stmd_bin_lookup_amended_witness :
    baseSt.BinMin = cround (0 / baseSt.bin) ∧
    ((yvalErrored (Yval baseSt 2) ↔
       (cround (2 / baseSt.bin) - cround (0 / baseSt.bin) + 1 < 1 ∨
         baseSt.N - 1 < cround (2 / baseSt.bin) - cround (0 / baseSt.bin) + 1)) ∧
     ∀ s' i, Yval baseSt 2 = Except.ok (s', i) →
       i = cround (2 / baseSt.bin) - cround (0 / baseSt.bin) + 1 ∧
       1 ≤ i ∧ i ≤ baseSt.N - 1) := by
  have hBM : baseSt.BinMin = cround (0 / baseSt.bin) := by
    show (0 : ℤ) = cround (0 / 1)
    rw [zero_div, cround_zero]
  exact ⟨hBM, stmd_bin_lookup_amended baseSt 2 0 hBM⟩

/-- C1 counterexample: on `baseSt` (`Δ = 1`, `Emin = 0`, `N = 5`) the sampled
energy `U = 0` has `round(U/Δ) − round(Emin/Δ) = 0 ∉ [1, N−2]`, so the claim
as stated predicts the fatal out-of-range error; the code instead succeeds
and returns bin index `1`. -/
theorem stmd_bin_lookup_cex :
    ¬ yvalErrored (Yval baseSt 0) ∧ yvalIndex (Yval baseSt 0) = 1 ∧
    specBin baseSt.bin 0 0 = 0 ∧ ¬ (1 ≤ specBin baseSt.bin 0 0) := by
  have h0 : cround ((0 : ℝ) / baseSt.bin) = 0 := by
    show cround ((0 : ℝ) / 1) = 0
    rw [zero_div, cround_zero]
  have hcond : ¬ (cround ((0 : ℝ) / baseSt.bin) - baseSt.BinMin + 1 < 1 ∨
      baseSt.N - 1 < cround ((0 : ℝ) / baseSt.bin) - baseSt.BinMin + 1) := by
    rw [h0]
    show ¬ ((0 : ℤ) - 0 + 1 < 1 ∨ 5 - 1 < 0 - 0 + 1)
    omega
  have hspec : specBin baseSt.bin 0 0 = 0 := by
    unfold specBin
    rw [h0]
    omega
  refine ⟨?_, ?_, hspec, by omega⟩
  · unfold Yval yvalErrored
    rw [if_neg hcond]
    exact fun h => h
  · unfold Yval yvalIndex
    rw [if_neg hcond]
    show cround ((0 : ℝ) / baseSt.bin) - baseSt.BinMin + 1 = 1
    rw [h0]
    decide

/-- C2 (confirmed): for every interior bin index `i ∈ [1, N−2]` and every
table, one `Yval` update sets `Ŷ[i+1]` to `Ŷ[i+1]/(1 − df·Ŷ[i+1])` clamped
from above by `T2`, sets `Ŷ[i−1]` to `Ŷ[i−1]/(1 + df·Ŷ[i−1])` clamped from
below by `T1`, and leaves `Ŷ[i]` and every other bin unchanged. -/
theorem stmd_update_rule (df T1 T2 : ℝ) (N i : ℤ) (Y : ℤ → ℝ)
    (_hlo : 1 ≤ i) (_hhi : i ≤ N - 2) :
    yvalUpdate df T1 T2 i Y (i + 1) =
      min (Y (i + 1) / (1 - df * Y (i + 1))) T2 ∧
    yvalUpdate df T1 T2 i Y (i - 1) =
      max (Y (i - 1) / (1 + df * Y (i - 1))) T1 ∧
    yvalUpdate df T1 T2 i Y i = Y i ∧
    ∀ j : ℤ, j ≠ i - 1 → j ≠ i + 1 → yvalUpdate df T1 T2 i Y j = Y j := by
  obtain ⟨h1, h2, h3⟩ := yvalUpdate_apply df T1 T2 i Y
  exact ⟨h1, h2, h3 i (by omega) (by omega), h3⟩

/-- C2 witness: the update rule at `i = 2` in a 5-bin table with `df = 0`. -/
theorem stmd_update_rule_witness :
    (1 : ℤ) ≤ 2 ∧ (2 : ℤ) ≤ 5 - 2 ∧
    (yvalUpdate 0 1 2 2 (fun _ => 1) (2 + 1) =
       min ((1 : ℝ) / (1 - 0 * 1)) 2 ∧
     yvalUpdate 0 1 2 2 (fun _ => 1) (2 - 1) =
       max ((1 : ℝ) / (1 + 0 * 1)) 1 ∧
     yvalUpdate 0 1 2 2 (fun _ => 1) 2 = 1 ∧
     ∀ j : ℤ, j ≠ 2 - 1 → j ≠ 2 + 1 → yvalUpdate 0 1 2 2 (fun _ => 1) j = 1) :=
  ⟨by norm_num, by norm_num,
   stmd_update_rule 0 1 2 5 2 (fun _ => 1) (by norm_num) (by norm_num)⟩

/-- C3 (amended): starting from the initial table `Ŷ = T2`, any finite
sequence of `Yval` updates keeps every bin inside `[T1, T2]`, provided
`0 ≤ T1 ≤ T2`, `df ≥ 0` and `df·T2 < 1`. The extra bound `df·T2 < 1` is
necessary: the code clamps the uphill neighbor only from above, so a `df`
with `df·Ŷ[i+1] ≥ 1` drives that bin negative (see the counterexample). -/
theorem stmd_clamp_invariant (df T1 T2 : ℝ) (hT1 : 0 ≤ T1) (hT12 : T1 ≤ T2)
    (hdf : 0 ≤ df) (hb : df * T2 < 1) (l : List ℤ) (j : ℤ) :
    T1 ≤ applyUpdates df T1 T2 l (fun _ => T2) j ∧
    applyUpdates df T1 T2 l (fun _ => T2) j ≤ T2 :=
  applyUpdates_mem_Icc df T1 T2 hT1 hT12 hdf hb l (fun _ => T2)
    (fun _ => ⟨hT12, le_refl T2⟩) j

/-- C3 witness: with `T1 = 1`, `T2 = 2`, `df = 1/100` and one update at bin
5, bin 6 stays inside `[T1, T2]`. -/
theorem stmd_clamp_invariant_witness :
    (0 : ℝ) ≤ 1 ∧ (1 : ℝ) ≤ 2 ∧ (0 : ℝ) ≤ 1 / 100 ∧ (1 / 100 : ℝ) * 2 < 1 ∧
    ((1 : ℝ) ≤ applyUpdates (1 / 100) 1 2 [5] (fun _ => 2) 6 ∧
      applyUpdates (1 / 100) 1 2 [5] (fun _ => 2) 6 ≤ 2) :=
  ⟨by norm_num, by norm_num, by norm_num, by norm_num,
   stmd_clamp_invariant (1 / 100) 1 2 (by norm_num) (by norm_num)
     (by norm_num) (by norm_num) [5] 6⟩

/-- C3 counterexample: with `T1 = 1/2`, `T2 = 2` and `df = 1 ≥ 0`, a single
update at bin 2 starting from the initial table `Ŷ = T2` leaves
`Ŷ[3] = 2/(1 − 1·2) = −2 < T1`: the claim fails for arbitrary `df ≥ 0`. -/
theorem stmd_clamp_cex :
    (0 : ℝ) ≤ 1 ∧ applyUpdates 1 (1 / 2) 2 [2] (fun _ => 2) 3 < 1 / 2 := by
  refine ⟨by norm_num, ?_⟩
  have h := (yvalUpdate_apply 1 (1 / 2) 2 2 (fun _ => 2)).1
  have e : applyUpdates 1 (1 / 2) 2 [2] (fun _ => 2) 3
      = yvalUpdate 1 (1 / 2) 2 2 (fun _ => 2) (2 + 1) := by
    norm_num [applyUpdates]
  rw [e, h]
  norm_num [min_def]

theorem digScan_spec (Y : ℤ → ℝ) (n : ℕ) (hn : 1 ≤ n) :
    0 ≤ (digScan Y n).1 ∧ (digScan Y n).1 < (n : ℤ) ∧
    Y (digScan Y n).1 = (digScan Y n).2 ∧
    (∀ k : ℤ, 0 ≤ k → k < (n : ℤ) → (digScan Y n).2 ≤ Y k) ∧
    (∀ k : ℤ, (digScan Y n).1 < k → k < (n : ℤ) → (digScan Y n).2 < Y k) := by
  induction n, hn using Nat.le_induction with
  | base =>
    have h1 : digScan Y 1 = (0, Y 0) := by
      show (if Y ((0 : ℕ) : ℤ) ≤ (digScan Y 0).2
        then (((0 : ℕ) : ℤ), Y ((0 : ℕ) : ℤ)) else digScan Y 0) = (0, Y 0)
      norm_num [digScan]
    rw [h1]
    refine ⟨le_rfl, by norm_num, rfl, ?_, ?_⟩
    · intro k hk0 hk1
      have : k = 0 := by omega
      subst this
      exact le_rfl
    · intro k hk0 hk1
      omega
  | succ m hm ih =>
    obtain ⟨ih0, ih1, ih2, ih3, ih4⟩ := ih
    have hstep : digScan Y (m + 1)
        = if Y ((m : ℕ) : ℤ) ≤ (digScan Y m).2
          then (((m : ℕ) : ℤ), Y ((m : ℕ) : ℤ)) else digScan Y m := rfl
    by_cases hc : Y ((m : ℕ) : ℤ) ≤ (digScan Y m).2
    · rw [hstep, if_pos hc]
      refine ⟨by positivity, by push_cast; omega, rfl, ?_, ?_⟩
      · intro k hk0 hk1
        rcases lt_or_ge k (m : ℤ) with hk | hk
        · exact le_trans hc (ih3 k hk0 hk)
        · have : k = (m : ℤ) := by push_cast at hk1 ⊢; omega
          subst this
          exact le_rfl
      · intro k hk0 hk1
        push_cast at hk1
        omega
    · rw [hstep, if_neg hc]
      push_neg at hc
      refine ⟨ih0, by push_cast; omega, ih2, ?_, ?_⟩
      · intro k hk0 hk1
        rcases lt_or_ge k (m : ℤ) with hk | hk
        · exact ih3 k hk0 hk
        · have : k = (m : ℤ) := by push_cast at hk1 ⊢; omega
          subst this
          exact le_of_lt hc
      · intro k hk0 hk1
        rcases lt_or_ge k (m : ℤ) with hk | hk
        · exact ih4 k hk0 hk
        · have : k = (m : ℤ) := by push_cast at hk1 ⊢; omega
          subst this
          exact hc

/-- C8 (amended): `dig` selects `i*` as the LARGEST index attaining the
minimum of `Ŷ` over `[0, N)` (the scan uses `<=`, so later ties win), sets
`Ŷ[i] ← Ŷ[i*]` for every `i < i*`, and leaves every bin at or above `i*`
unchanged: the scan result `(i*, m)` satisfies `0 ≤ i* ≤ N−1`, `Ŷ[i*] = m`,
`m` is a lower bound of `Ŷ` on `[0, N)`, every bin strictly after `i*` is
strictly above `m`, and `dig` rewrites exactly the bins below `i*` to `m`. -/
theorem stmd_dig_spec (s : St) (hN : 1 ≤ s.N) :
    0 ≤ (digScan s.Y2 s.N.toNat).1 ∧ (digScan s.Y2 s.N.toNat).1 < s.N ∧
    s.Y2 (digScan s.Y2 s.N.toNat).1 = (digScan s.Y2 s.N.toNat).2 ∧
    (∀ k : ℤ, 0 ≤ k → k < s.N → (digScan s.Y2 s.N.toNat).2 ≤ s.Y2 k) ∧
    (∀ k : ℤ, (digScan s.Y2 s.N.toNat).1 < k → k < s.N →
        (digScan s.Y2 s.N.toNat).2 < s.Y2 k) ∧
    (∀ i : ℤ, 0 ≤ i → i < (digScan s.Y2 s.N.toNat).1 →
        (dig s).Y2 i = (digScan s.Y2 s.N.toNat).2) ∧
    (∀ i : ℤ, ¬ (0 ≤ i ∧ i < (digScan s.Y2 s.N.toNat).1) →
        (dig s).Y2 i = s.Y2 i) := by
  have hcast : ((s.N.toNat : ℕ) : ℤ) = s.N := Int.toNat_of_nonneg (by omega)
  obtain ⟨h0, h1, h2, h3, h4⟩ := digScan_spec s.Y2 s.N.toNat (by omega)
  rw [hcast] at h1 h3 h4
  refine ⟨h0, h1, h2, h3, h4, ?_, ?_⟩
  · intro i hi0 hi1
    show (fun i => if 0 ≤ i ∧ i < (digScan s.Y2 s.N.toNat).1
        then (digScan s.Y2 s.N.toNat).2 else s.Y2 i) i
      = (digScan s.Y2 s.N.toNat).2
    exact if_pos ⟨hi0, hi1⟩
  · intro i hi
    show (fun i => if 0 ≤ i ∧ i < (digScan s.Y2 s.N.toNat).1
        then (digScan s.Y2 s.N.toNat).2 else s.Y2 i) i
      = s.Y2 i
    exact if_neg hi

/-- C8 witness: on the flat 5-bin table of `baseSt` the scan returns the
last index 4 with minimum 1, and `dig` rewrites bins 0..3 to 1. -/
theorem stmd_dig_spec_witness :
    (1 : ℤ) ≤ baseSt.N ∧
    (0 ≤ (digScan baseSt.Y2 baseSt.N.toNat).1 ∧
     (digScan baseSt.Y2 baseSt.N.toNat).1 < baseSt.N ∧
     baseSt.Y2 (digScan baseSt.Y2 baseSt.N.toNat).1
       = (digScan baseSt.Y2 baseSt.N.toNat).2 ∧
     (∀ k : ℤ, 0 ≤ k → k < baseSt.N →
        (digScan baseSt.Y2 baseSt.N.toNat).2 ≤ baseSt.Y2 k) ∧
     (∀ k : ℤ, (digScan baseSt.Y2 baseSt.N.toNat).1 < k → k < baseSt.N →
        (digScan baseSt.Y2 baseSt.N.toNat).2 < baseSt.Y2 k) ∧
     (∀ i : ℤ, 0 ≤ i → i < (digScan baseSt.Y2 baseSt.N.toNat).1 →
        (dig baseSt).Y2 i = (digScan baseSt.Y2 baseSt.N.toNat).2) ∧
     (∀ i : ℤ, ¬ (0 ≤ i ∧ i < (digScan baseSt.Y2 baseSt.N.toNat).1) →
        (dig baseSt).Y2 i = baseSt.Y2 i)) :=
  ⟨by decide, stmd_dig_spec baseSt (by decide)⟩

/-- The table `[2, 1, 3, 1, 2]` on which the tie between bins 1 and 3 makes
the scan direction observable. -/
def c8St : St :=
  { baseSt with Y2 := fun i =>
      if i = 0 then 2 else if i = 1 then 1 else if i = 2 then 3
      else if i = 3 then 1 else 2 }

/-- C8 counterexample: on the table `[2, 1, 3, 1, 2]` the minimum 1 is first
attained at index 1, so the claim (ties toward the smallest index) predicts
that every bin at or above 1 — in particular bin 2, holding 3 — is left
unchanged; the code instead picks the last argmin 3 and rewrites bin 2 to 1. -/
theorem stmd_dig_cex :
    c8St.Y2 0 = 2 ∧ c8St.Y2 1 = 1 ∧ c8St.Y2 2 = 3 ∧ c8St.Y2 3 = 1 ∧
    c8St.Y2 4 = 2 ∧ (dig c8St).Y2 2 = 1 := by
  refine ⟨by norm_num [c8St], by norm_num [c8St], by norm_num [c8St],
    by norm_num [c8St], by norm_num [c8St], ?_⟩
  norm_num [dig, c8St, baseSt, digScan]

/-- C7 (confirmed): `HCHK` averages `Hist` over exactly the bins with
`CTmin < Ŷ[i] < CTmax`; when that set is empty it reports no change; when it
is nonempty it increments `SWf` exactly when no qualifying bin has
real-valued relative deviation `|Hist[i] − mean|/mean` above `HCKtol`, and a
change is reported (the caller's `SWfold != SWf` test) exactly in that case.
`HCKtol` is hard-coded to `0.2` at init. The nonnegativity hypothesis on
`Hist` reflects that histogram entries are counts. -/
theorem stmd_hchk_spec (s : St) (hH : ∀ i, 0 ≤ s.Hist i) :
    (HCHK s).SWfold = s.SWf ∧
    ((hchkQ s).card = 0 → (HCHK s).SWf = s.SWf ∧ ¬ hchkChanged s) ∧
    ((hchkQ s).card ≠ 0 →
      ((HCHK s).SWf =
        if ((hchkQ s).filter fun i =>
            s.HCKtol < |(s.Hist i : ℝ) - hchkAve s| / hchkAve s).card = 0
        then s.SWf + 1 else s.SWf) ∧
      (hchkChanged s ↔ ((hchkQ s).filter fun i =>
          s.HCKtol < |(s.Hist i : ℝ) - hchkAve s| / hchkAve s).card = 0)) ∧
    (∀ p : Params, (freshInit p).HCKtol = 0.2) := by
  have hμ : 0 ≤ hchkAve s :=
    div_nonneg (Finset.sum_nonneg fun i _ => by exact_mod_cast hH i)
      (Nat.cast_nonneg _)
  have hfilter : ((hchkQ s).filter fun i =>
      s.HCKtol < |(s.Hist i : ℝ) - hchkAve s| / hchkAve s)
      = ((hchkQ s).filter fun i =>
      s.HCKtol < |((s.Hist i : ℝ) - hchkAve s) / hchkAve s|) := by
    apply Finset.filter_congr
    intro i _
    rw [abs_div, abs_of_nonneg hμ]
  have hfold : (HCHK s).SWfold = s.SWf := rfl
  have hswf : (HCHK s).SWf = hchkNewSWf s := rfl
  refine ⟨hfold, ?_, ?_, fun p => rfl⟩
  · intro hq
    have h1 : (HCHK s).SWf = s.SWf := by
      rw [hswf]
      unfold hchkNewSWf
      rw [if_pos hq]
    refine ⟨h1, ?_⟩
    unfold hchkChanged
    rw [hfold, h1]
    simp
  · intro hq
    have h1 : (HCHK s).SWf =
        if ((hchkQ s).filter fun i =>
          s.HCKtol < |(s.Hist i : ℝ) - hchkAve s| / hchkAve s).card = 0
        then s.SWf + 1 else s.SWf := by
      rw [hswf]
      unfold hchkNewSWf hchkNumViol
      rw [if_neg hq, hfilter]
      congr 1
      simp [Nat.lt_one_iff]
    refine ⟨h1, ?_⟩
    unfold hchkChanged
    rw [hfold, h1]
    split_ifs with hc
    · simp only [hc, iff_true]
      omega
    · simp only [hc, iff_false]
      omega

/-- C7 witness: on `baseSt` all 5 bins qualify (`0 < 1 < 10`), the histogram
is identically zero, no bin violates the tolerance, so `SWf` is incremented
and a change is reported. -/
theorem stmd_hchk_spec_witness :
    (∀ i, 0 ≤ baseSt.Hist i) ∧
    ((HCHK baseSt).SWfold = baseSt.SWf ∧
     ((hchkQ baseSt).card = 0 →
        (HCHK baseSt).SWf = baseSt.SWf ∧ ¬ hchkChanged baseSt) ∧
     ((hchkQ baseSt).card ≠ 0 →
        ((HCHK baseSt).SWf =
          if ((hchkQ baseSt).filter fun i =>
              baseSt.HCKtol < |(baseSt.Hist i : ℝ) - hchkAve baseSt|
                / hchkAve baseSt).card = 0
          then baseSt.SWf + 1 else baseSt.SWf) ∧
        (hchkChanged baseSt ↔ ((hchkQ baseSt).filter fun i =>
            baseSt.HCKtol < |(baseSt.Hist i : ℝ) - hchkAve baseSt|
              / hchkAve baseSt).card = 0)) ∧
     (∀ p : Params, (freshInit p).HCKtol = 0.2)) :=
  ⟨fun _ => le_rfl, stmd_hchk_spec baseSt fun _ => le_rfl⟩

/-- C9 (confirmed; the acceptance rule is modelled from the spec since
temper_stmd.cpp is not part of this tree): whenever either walker of a
candidate pair still reports stage 1, the exchange is rejected regardless of
the energies (even when both lie inside both windows) and regardless of the
Metropolis/Boltzmann outcome. -/
theorem stmd_exchange_stage_gate (STGa STGb : ℤ)
    (Ua Ub Emina Emaxa Eminb Emaxb : ℝ) (boltzOk : Prop)
    (_hwa : Emina ≤ Ub ∧ Ub ≤ Emaxa) (_hwb : Eminb ≤ Ua ∧ Ua ≤ Emaxb)
    (hstg : STGa = 1 ∨ STGb = 1) :
    ¬ temperStmdAccept STGa STGb Ua Ub Emina Emaxa Eminb Emaxb boltzOk := by
  intro h
  obtain ⟨_, ⟨h2a, h2b⟩, _⟩ := h
  omega

theorem Yval_ok (s : St) (potE : ℝ)
    (hlo : 1 ≤ cround (potE / s.bin) - s.BinMin + 1)
    (hhi : cround (potE / s.bin) - s.BinMin + 1 ≤ s.N - 1) :
    Yval s potE = Except.ok
      ({ s with curbin := cround (potE / s.bin) - s.BinMin + 1,
                Y2 := yvalUpdate s.df s.T1 s.T2
                  (cround (potE / s.bin) - s.BinMin + 1) s.Y2 },
       cround (potE / s.bin) - s.BinMin + 1) := by
  unfold Yval
  dsimp only
  rw [if_neg (by omega)]

theorem Yval_frame (s : St) (potE : ℝ) (t : St) (i : ℤ)
    (h : Yval s potE = Except.ok (t, i)) :
    t.STG = s.STG ∧ t.f = s.f ∧ t.df = s.df ∧ t.f_flag = s.f_flag ∧
    t.TSC1 = s.TSC1 ∧ t.TSC2 = s.TSC2 ∧ t.pfinFval = s.pfinFval ∧
    t.finFval = s.finFval ∧ t.SWchk = s.SWchk ∧ t.bin = s.bin ∧
    t.CountPH = s.CountPH ∧ t.N = s.N := by
  unfold Yval at h
  dsimp only at h
  split_ifs at h
  injection h with h'
  rw [Prod.mk.injEq] at h'
  obtain ⟨h1, _⟩ := h'
  subst h1
  exact ⟨rfl, rfl, rfl, rfl, rfl, rfl, rfl, rfl, rfl, rfl, rfl, rfl⟩

theorem preMAIN_stg_lt3 (s : St) (istep : ℤ) (h : s.STG < 3) :
    preMAIN s istep = { s with Count := istep, totCi := s.totCi + 1 } := by
  unfold preMAIN
  rw [if_neg (by omega)]

theorem preMAIN_stg_ge3 (s : St) (istep : ℤ) (h : 3 ≤ s.STG) :
    preMAIN s istep = { s with Count := istep, totCi := s.totCi + 1,
                               CountPH := s.CountPH + 1 } := by
  unfold preMAIN
  rw [if_pos h]

theorem histPhase_frame (t : St) (potE : ℝ) (i : ℤ) :
    (histPhase t potE i).STG = t.STG ∧ (histPhase t potE i).f = t.f ∧
    (histPhase t potE i).df = t.df ∧
    (histPhase t potE i).f_flag = t.f_flag ∧
    (histPhase t potE i).TSC1 = t.TSC1 ∧
    (histPhase t potE i).TSC2 = t.TSC2 ∧
    (histPhase t potE i).pfinFval = t.pfinFval ∧
    (histPhase t potE i).finFval = t.finFval ∧
    (histPhase t potE i).SWchk = t.SWchk ∧
    (histPhase t potE i).bin = t.bin := by
  unfold histPhase gammaE
  dsimp only
  split_ifs <;>
    exact ⟨rfl, rfl, rfl, rfl, rfl, rfl, rfl, rfl, rfl, rfl⟩

theorem stg3Block_skip (s : St) (istep : ℤ) (h : s.STG < 3) :
    stg3Block s istep = s := by
  unfold stg3Block
  rw [if_neg (by omega)]

theorem stg3Block_offstep (s : St) (istep : ℤ) (h : ¬ istep % s.TSC2 = 0) :
    stg3Block s istep = s := by
  unfold stg3Block
  by_cases h3 : 3 ≤ s.STG
  · rw [if_pos h3, if_neg h]
  · rw [if_neg h3]

theorem stg2Block_skip (s : St) (istep : ℤ) (h : s.STG ≠ 2) :
    stg2Block s istep = Except.ok s := by
  unfold stg2Block
  rw [if_neg h]

theorem stg1Block_skip (s : St) (istep : ℤ) (h : s.STG ≠ 1) :
    stg1Block s istep = s := by
  unfold stg1Block
  rw [if_neg h]

theorem stg3Block_stage4 (s : St) (istep : ℤ) (h4 : s.STG = 4)
    (hff : 1 < s.f_flag) (hm : istep % s.TSC2 = 0) :
    (stg3Block s istep).STG = 4 ∧ (stg3Block s istep).f = s.f ∧
    (stg3Block s istep).df = Real.log s.f * 0.5 / s.bin ∧
    (∀ i, (stg3Block s istep).Hist i = 0) ∧
    (stg3Block s istep).CountH = 0 := by
  unfold stg3Block
  rw [if_pos (by omega : (3 : ℤ) ≤ s.STG), if_pos hm]
  have h1 : stg3Hchk s = s := by
    unfold stg3Hchk
    rw [if_neg (by omega)]
  rw [h1]
  unfold stg3Uncond
  rw [if_pos hff, if_neg (show ¬ s.STG = 3 by omega)]
  split_ifs with hfin
  · exact ⟨rfl, rfl, rfl, fun i => rfl, rfl⟩
  · exact ⟨h4, rfl, rfl, fun i => rfl, rfl⟩

theorem stg2Flag0_id (s : St) (h : s.f_flag ≠ 0) : stg2Flag0 s = s := by
  unfold stg2Flag0
  rw [if_neg h]

theorem stg2Flag1_id (s : St) (h : s.f_flag ≠ 1) : stg2Flag1 s = s := by
  unfold stg2Flag1
  rw [if_neg h]

theorem stg2Flag2_id (s : St) (istep : ℤ) (h : s.f_flag ≠ 2) :
    stg2Flag2 s istep = s := by
  unfold stg2Flag2
  rw [if_neg h]

theorem stg2Flag3_id (s : St) (istep : ℤ) (h : s.f_flag ≠ 3) :
    stg2Flag3 s istep = s := by
  unfold stg2Flag3
  rw [if_neg h]

theorem stg2Flag4_id (s : St) (istep : ℤ) (h : s.f_flag ≠ 4) :
    stg2Flag4 s istep = s := by
  unfold stg2Flag4
  rw [if_neg h]

theorem stg2Flag2_frame (s : St) (istep : ℤ) :
    (stg2Flag2 s istep).SWchk = s.SWchk ∧ (stg2Flag2 s istep).STG = s.STG ∧
    (stg2Flag2 s istep).CountPH = s.CountPH ∧
    (stg2Flag2 s istep).pfinFval = s.pfinFval ∧
    (stg2Flag2 s istep).f_flag = s.f_flag := by
  unfold stg2Flag2
  split_ifs <;> exact ⟨rfl, rfl, rfl, rfl, rfl⟩

theorem stg2Flag3_frame (s : St) (istep : ℤ) :
    (stg2Flag3 s istep).SWchk = s.SWchk ∧ (stg2Flag3 s istep).STG = s.STG ∧
    (stg2Flag3 s istep).CountPH = s.CountPH ∧
    (stg2Flag3 s istep).pfinFval = s.pfinFval ∧
    (stg2Flag3 s istep).f_flag = s.f_flag := by
  unfold stg2Flag3
  split_ifs <;> exact ⟨rfl, rfl, rfl, rfl, rfl⟩

theorem stg2Flag4_frame (s : St) (istep : ℤ) :
    (stg2Flag4 s istep).SWchk = s.SWchk ∧ (stg2Flag4 s istep).STG = s.STG ∧
    (stg2Flag4 s istep).CountPH = s.CountPH ∧
    (stg2Flag4 s istep).pfinFval = s.pfinFval ∧
    (stg2Flag4 s istep).f_flag = s.f_flag := by
  unfold stg2Flag4
  split_ifs <;> exact ⟨rfl, rfl, rfl, rfl, rfl⟩

theorem stg2Flag1Update_frame (s : St) :
    (stg2Flag1Update s).pfinFval = s.pfinFval ∧
    (stg2Flag1Update s).f_flag = s.f_flag ∧
    (stg2Flag1Update s).STG = s.STG ∧
    (stg2Flag1Update s).CountPH = s.CountPH := by
  unfold stg2Flag1Update
  split_ifs <;> exact ⟨rfl, rfl, rfl, rfl⟩

theorem stg2Flag1_spec (s : St) (h1 : s.f_flag = 1) :
    (stg2Flag1 s).pfinFval = s.pfinFval ∧
    (stg2Flag1 s).f_flag = s.f_flag ∧
    ((stg2Flag1 s).f ≤ s.pfinFval →
      (stg2Flag1 s).STG = 3 ∧ (stg2Flag1 s).CountPH = 0 ∧
      (stg2Flag1 s).SWchk = 1 ∧ (∀ i, (stg2Flag1 s).Hist i = 0) ∧
      (stg2Flag1 s).CountH = 0) := by
  obtain ⟨u1, u2, u3, u4⟩ := stg2Flag1Update_frame s
  unfold stg2Flag1
  rw [if_pos h1]
  split_ifs with hp
  · exact ⟨u1, u2, fun _ => ⟨rfl, rfl, rfl, fun i => rfl, rfl⟩⟩
  · exact ⟨u1, u2, fun hf => absurd (by rw [u1]; exact hf) hp⟩

theorem stg2Flag1_STG (s : St) :
    (stg2Flag1 s).STG = s.STG ∨ (stg2Flag1 s).STG = 3 := by
  obtain ⟨u1, u2, u3, u4⟩ := stg2Flag1Update_frame s
  unfold stg2Flag1
  split_ifs
  · right
    rfl
  · left
    exact u3
  · left
    rfl

theorem stg2Scheme_STG (s : St) (istep : ℤ) :
    (stg2Scheme s istep).STG = s.STG ∨ (stg2Scheme s istep).STG = 3 := by
  have hf0 : (stg2Flag0 s).STG = s.STG := by
    unfold stg2Flag0
    split_ifs <;> rfl
  have hf1 := stg2Flag1_STG (stg2Flag0 s)
  have hf2 := (stg2Flag2_frame (stg2Flag1 (stg2Flag0 s)) istep).2.1
  have hf3 :=
    (stg2Flag3_frame (stg2Flag2 (stg2Flag1 (stg2Flag0 s)) istep) istep).2.1
  have hf4 := (stg2Flag4_frame
    (stg2Flag3 (stg2Flag2 (stg2Flag1 (stg2Flag0 s)) istep) istep) istep).2.1
  unfold stg2Scheme
  rw [hf4, hf3, hf2]
  rcases hf1 with h | h
  · rw [h, hf0]
    left
    rfl
  · rw [h]
    right
    rfl

theorem stg2Block_STG (s : St) (istep : ℤ) (v : St) (h2 : s.STG = 2)
    (hv : stg2Block s istep = Except.ok v) : v.STG = 2 ∨ v.STG = 3 := by
  unfold stg2Block at hv
  rw [if_pos h2] at hv
  by_cases hm : istep % s.TSC2 = 0
  · rw [if_pos hm] at hv
    by_cases he : (stg2Scheme s istep).f ≤ 1
    · rw [if_pos he] at hv
      cases hv
    · rw [if_neg he] at hv
      by_cases hpm : (stg2Scheme s istep).f ≤ (stg2Scheme s istep).pfinFval ∧
          1 < (stg2Scheme s istep).f_flag
      · rw [if_pos hpm] at hv
        injection hv with hv'
        subst hv'
        right
        rfl
      · rw [if_neg hpm] at hv
        injection hv with hv'
        subst hv'
        rcases stg2Scheme_STG s istep with h | h
        · rw [h2] at h
          left
          exact h
        · right
          exact h
  · rw [if_neg hm] at hv
    injection hv with hv'
    subst hv'
    exact Or.inl h2

theorem stg2Block_promotion (s : St) (istep : ℤ) (v : St)
    (h2 : s.STG = 2) (hm : istep % s.TSC2 = 0)
    (hv : stg2Block s istep = Except.ok v) (hf : v.f ≤ s.pfinFval) :
    (s.f_flag = 1 →
      v.STG = 3 ∧ v.CountPH = 0 ∧ v.SWchk = 1 ∧ (∀ i, v.Hist i = 0) ∧
      v.CountH = 0) ∧
    (1 < s.f_flag → v.STG = 3 ∧ v.CountPH = 0 ∧ v.SWchk = s.SWchk) := by
  unfold stg2Block at hv
  rw [if_pos h2, if_pos hm] at hv
  constructor
  · intro hflag
    obtain ⟨spf, sff, smain⟩ := stg2Flag1_spec s hflag
    have hsch : stg2Scheme s istep = stg2Flag1 s := by
      unfold stg2Scheme
      rw [stg2Flag0_id s (by omega)]
      rw [stg2Flag2_id _ istep (by rw [sff]; omega),
          stg2Flag3_id _ istep (by rw [sff]; omega),
          stg2Flag4_id _ istep (by rw [sff]; omega)]
    rw [hsch] at hv
    by_cases he : (stg2Flag1 s).f ≤ 1
    · rw [if_pos he] at hv
      cases hv
    · rw [if_neg he] at hv
      by_cases hpm : (stg2Flag1 s).f ≤ (stg2Flag1 s).pfinFval ∧
          1 < (stg2Flag1 s).f_flag
      · exact absurd hpm.2 (by rw [sff, hflag]; omega)
      · rw [if_neg hpm] at hv
        injection hv with hv'
        subst hv'
        exact smain hf
  · intro hflag
    have hsch : stg2Scheme s istep
        = stg2Flag4 (stg2Flag3 (stg2Flag2 s istep) istep) istep := by
      unfold stg2Scheme
      rw [stg2Flag0_id s (by omega), stg2Flag1_id s (by omega)]
    rw [hsch] at hv
    have f2 := stg2Flag2_frame s istep
    have f3 := stg2Flag3_frame (stg2Flag2 s istep) istep
    have f4 := stg2Flag4_frame (stg2Flag3 (stg2Flag2 s istep) istep) istep
    have hSW : (stg2Flag4 (stg2Flag3 (stg2Flag2 s istep) istep) istep).SWchk
        = s.SWchk := by rw [f4.1, f3.1, f2.1]
    have hPF : (stg2Flag4 (stg2Flag3 (stg2Flag2 s istep) istep) istep).pfinFval
        = s.pfinFval := by rw [f4.2.2.2.1, f3.2.2.2.1, f2.2.2.2.1]
    have hFF : (stg2Flag4 (stg2Flag3 (stg2Flag2 s istep) istep) istep).f_flag
        = s.f_flag := by rw [f4.2.2.2.2, f3.2.2.2.2, f2.2.2.2.2]
    by_cases he : (stg2Flag4 (stg2Flag3 (stg2Flag2 s istep) istep) istep).f ≤ 1
    · rw [if_pos he] at hv
      cases hv
    · rw [if_neg he] at hv
      by_cases hpm : (stg2Flag4 (stg2Flag3 (stg2Flag2 s istep) istep) istep).f
          ≤ (stg2Flag4 (stg2Flag3 (stg2Flag2 s istep) istep) istep).pfinFval ∧
          1 < (stg2Flag4 (stg2Flag3 (stg2Flag2 s istep) istep) istep).f_flag
      · rw [if_pos hpm] at hv
        injection hv with hv'
        subst hv'
        exact ⟨rfl, rfl, hSW⟩
      · rw [if_neg hpm] at hv
        injection hv with hv'
        subst hv'
        exact absurd ⟨by rw [hPF]; exact hf, by rw [hFF]; exact hflag⟩ hpm

theorem MAIN_eq_ok (s : St) (istep : ℤ) (potE : ℝ) (t : St) (i : ℤ)
    (hY : Yval (preMAIN s istep) potE = Except.ok (t, i)) (u : St)
    (hU : stg2Block (stg3Block (histPhase t potE i) istep) istep
      = Except.ok u) :
    MAIN s istep potE = Except.ok (stg1Block u istep) := by
  unfold MAIN
  rw [hY]
  show (match stg2Block (stg3Block (histPhase t potE i) istep) istep with
        | Except.error e => Except.error e
        | Except.ok u => Except.ok (stg1Block u istep)) = _
  rw [hU]

theorem MAIN_ok_inv (s : St) (istep : ℤ) (potE : ℝ) (s' : St)
    (h : MAIN s istep potE = Except.ok s') :
    ∃ t i u, Yval (preMAIN s istep) potE = Except.ok (t, i) ∧
      stg2Block (stg3Block (histPhase t potE i) istep) istep = Except.ok u ∧
      s' = stg1Block u istep := by
  unfold MAIN at h
  cases hY : Yval (preMAIN s istep) potE with
  | error e =>
    rw [hY] at h
    exact absurd h (by simp)
  | ok p =>
    obtain ⟨t, i⟩ := p
    rw [hY] at h
    have h2 : (match stg2Block (stg3Block (histPhase t potE i) istep) istep
        with
        | Except.error e => Except.error e
        | Except.ok u => Except.ok (stg1Block u istep)) = Except.ok s' := h
    cases hU : stg2Block (stg3Block (histPhase t potE i) istep) istep with
    | error e =>
      rw [hU] at h2
      exact absurd h2 (by simp)
    | ok u =>
      rw [hU] at h2
      have h3 : Except.ok (stg1Block u istep) = Except.ok s' := h2
      injection h3 with h4
      exact ⟨t, i, u, rfl, hU, h4.symm⟩

/-- C6 (amended): in stage 2, on a TSC2 step whose f-update leaves
`f ≤ pfinFval`, the same `MAIN` step promotes `STG ← 3` and resets
`CountPH ← 0`; under the hchk scheme (`f_flag = 1`) the promotion also sets
`SWchk ← 1` and resets the window (`Hist ← 0`, `CountH ← 0`), but under the
unconditional schemes (`f_flag > 1`, fix_stmd.cpp lines 1017-1020) the
promotion leaves `SWchk` unchanged. -/
theorem stmd_stage2_promotion (s : St) (istep : ℤ) (potE : ℝ) (s' : St)
    (hSTG : s.STG = 2) (hm : istep % s.TSC2 = 0)
    (hrun : MAIN s istep potE = Except.ok s') (hf : s'.f ≤ s.pfinFval) :
    (s.f_flag = 1 → s'.STG = 3 ∧ s'.CountPH = 0 ∧ s'.SWchk = 1 ∧
      (∀ i, s'.Hist i = 0) ∧ s'.CountH = 0) ∧
    (1 < s.f_flag → s'.STG = 3 ∧ s'.CountPH = 0 ∧ s'.SWchk = s.SWchk) := by
  obtain ⟨t, i, u, hY, hU, hs'⟩ := MAIN_ok_inv s istep potE s' hrun
  rw [preMAIN_stg_lt3 s istep (by omega)] at hY
  obtain ⟨yS, yf, ydf, yff, yT1, yT2, ypf, yfin, ySW, ybin, yCPH, yN⟩ :=
    Yval_frame _ potE t i hY
  have htS : t.STG = s.STG := yS
  have htff : t.f_flag = s.f_flag := yff
  have htT : t.TSC2 = s.TSC2 := yT2
  have htpf : t.pfinFval = s.pfinFval := ypf
  have htSW : t.SWchk = s.SWchk := ySW
  obtain ⟨hH1, hH2, hH3, hH4, hH5, hH6, hH7, hH8, hH9, hH10⟩ :=
    histPhase_frame t potE i
  have hXS : (histPhase t potE i).STG = 2 := by rw [hH1, htS, hSTG]
  have hskip3 : stg3Block (histPhase t potE i) istep = histPhase t potE i :=
    stg3Block_skip _ istep (by rw [hXS]; omega)
  rw [hskip3] at hU
  have hust := stg2Block_STG (histPhase t potE i) istep u hXS hU
  have hskip1 : stg1Block u istep = u :=
    stg1Block_skip u istep (by rcases hust with h | h <;> omega)
  rw [hskip1] at hs'
  subst hs'
  have hmX : istep % (histPhase t potE i).TSC2 = 0 := by
    rw [hH6, htT]
    exact hm
  have hfX : s'.f ≤ (histPhase t potE i).pfinFval := by
    rw [hH7, htpf]
    exact hf
  obtain ⟨P1, P2⟩ :=
    stg2Block_promotion (histPhase t potE i) istep s' hXS hmX hU hfX
  have hXff : (histPhase t potE i).f_flag = s.f_flag := by rw [hH4, htff]
  constructor
  · intro hflag
    exact P1 (by rw [hXff]; exact hflag)
  · intro hflag
    obtain ⟨q1, q2, q3⟩ := P2 (by rw [hXff]; exact hflag)
    exact ⟨q1, q2, by rw [q3, hH9, htSW]⟩

/-- C10 (confirmed): in stage 4 with an unconditional scheme
(`f_flag > 1`), a step with `istep % TSC2 = 0` still zeroes the whole
window histogram and resets `CountH` to 0 (the reset at fix_stmd.cpp lines
903-905 is not guarded by the stage), while `f` and `df` are unchanged (the
sqrt reduction is guarded by `STG == 3`): the periodic window resets
continue after the learning-rate schedule freezes. -/
theorem stmd_stage4_window_reset (s : St) (istep : ℤ) (potE : ℝ)
    (hSTG : s.STG = 4) (hff : 1 < s.f_flag) (hm : istep % s.TSC2 = 0)
    (hdf : s.df = Real.log s.f * 0.5 / s.bin)
    (hlo : 1 ≤ cround (potE / s.bin) - s.BinMin + 1)
    (hhi : cround (potE / s.bin) - s.BinMin + 1 ≤ s.N - 1) :
    ∃ s', MAIN s istep potE = Except.ok s' ∧ (∀ j, s'.Hist j = 0) ∧
      s'.CountH = 0 ∧ s'.f = s.f ∧ s'.df = s.df ∧ s'.STG = 4 := by
  have hpre := preMAIN_stg_ge3 s istep (by omega)
  have hYlo : 1 ≤ cround (potE / (preMAIN s istep).bin)
      - (preMAIN s istep).BinMin + 1 := by
    rw [hpre]
    exact hlo
  have hYhi : cround (potE / (preMAIN s istep).bin)
      - (preMAIN s istep).BinMin + 1 ≤ (preMAIN s istep).N - 1 := by
    rw [hpre]
    exact hhi
  have hY := Yval_ok (preMAIN s istep) potE hYlo hYhi
  obtain ⟨hH1, hH2, hH3, hH4, hH5, hH6, hH7, hH8, hH9, hH10⟩ :=
    histPhase_frame ({ (preMAIN s istep) with
      curbin := cround (potE / (preMAIN s istep).bin)
        - (preMAIN s istep).BinMin + 1,
      Y2 := yvalUpdate (preMAIN s istep).df (preMAIN s istep).T1
        (preMAIN s istep).T2
        (cround (potE / (preMAIN s istep).bin) - (preMAIN s istep).BinMin + 1)
        (preMAIN s istep).Y2 }) potE
    (cround (potE / (preMAIN s istep).bin) - (preMAIN s istep).BinMin + 1)
  set t0 : St := { (preMAIN s istep) with
    curbin := cround (potE / (preMAIN s istep).bin)
      - (preMAIN s istep).BinMin + 1,
    Y2 := yvalUpdate (preMAIN s istep).df (preMAIN s istep).T1
      (preMAIN s istep).T2
      (cround (potE / (preMAIN s istep).bin) - (preMAIN s istep).BinMin + 1)
      (preMAIN s istep).Y2 } with ht0
  set i0 : ℤ := cround (potE / (preMAIN s istep).bin)
    - (preMAIN s istep).BinMin + 1 with hi0
  have ht0S : t0.STG = s.STG := by rw [ht0, hpre]
  have ht0f : t0.f = s.f := by rw [ht0, hpre]
  have ht0ff : t0.f_flag = s.f_flag := by rw [ht0, hpre]
  have ht0T : t0.TSC2 = s.TSC2 := by rw [ht0, hpre]
  have ht0b : t0.bin = s.bin := by rw [ht0, hpre]
  have hXS : (histPhase t0 potE i0).STG = 4 := by rw [hH1, ht0S, hSTG]
  have hXff : 1 < (histPhase t0 potE i0).f_flag := by
    rw [hH4, ht0ff]
    exact hff
  have hXm : istep % (histPhase t0 potE i0).TSC2 = 0 := by
    rw [hH6, ht0T]
    exact hm
  obtain ⟨x1, x2, x3, x4, x5⟩ :=
    stg3Block_stage4 (histPhase t0 potE i0) istep hXS hXff hXm
  have hskip2 : stg2Block (stg3Block (histPhase t0 potE i0) istep) istep
      = Except.ok (stg3Block (histPhase t0 potE i0) istep) :=
    stg2Block_skip _ istep (by rw [x1]; omega)
  have hM := MAIN_eq_ok s istep potE t0 i0 hY
    (stg3Block (histPhase t0 potE i0) istep) hskip2
  have hskip1 : stg1Block (stg3Block (histPhase t0 potE i0) istep) istep
      = stg3Block (histPhase t0 potE i0) istep :=
    stg1Block_skip _ istep (by rw [x1]; omega)
  rw [hskip1] at hM
  refine ⟨stg3Block (histPhase t0 potE i0) istep, hM, x4, x5, ?_, ?_, x1⟩
  · rw [x2, hH2, ht0f]
  · rw [x3, hH2, hH10, ht0f, ht0b, hdf]

theorem stg2Scheme_flag2 (s : St) (istep : ℤ) (hff : s.f_flag = 2)
    (hist : istep ≠ 0) :
    stg2Scheme s istep = { s with
      f := Real.sqrt s.f, df := Real.log (Real.sqrt s.f) * 0.5 / s.bin,
      Hist := fun _ => 0, CountH := 0 } := by
  have h2 : stg2Flag2 s istep = { s with
      f := Real.sqrt s.f, df := Real.log (Real.sqrt s.f) * 0.5 / s.bin,
      Hist := fun _ => 0, CountH := 0 } := by
    unfold stg2Flag2
    rw [if_pos hff, if_pos hist]
  have h3 : ({ s with
      f := Real.sqrt s.f, df := Real.log (Real.sqrt s.f) * 0.5 / s.bin,
      Hist := fun _ => 0, CountH := 0 } : St).f_flag ≠ 3 := by
    show ¬ s.f_flag = 3
    omega
  have h4 : ({ s with
      f := Real.sqrt s.f, df := Real.log (Real.sqrt s.f) * 0.5 / s.bin,
      Hist := fun _ => 0, CountH := 0 } : St).f_flag ≠ 4 := by
    show ¬ s.f_flag = 4
    omega
  unfold stg2Scheme
  rw [stg2Flag0_id s (by omega), stg2Flag1_id s (by omega), h2,
      stg2Flag3_id _ istep h3, stg2Flag4_id _ istep h4]

theorem stg2Block_flag2_promote (s : St) (istep : ℤ) (hS : s.STG = 2)
    (hm : istep % s.TSC2 = 0) (hff : s.f_flag = 2) (hist : istep ≠ 0)
    (hgt1 : 1 < Real.sqrt s.f) (hle : Real.sqrt s.f ≤ s.pfinFval) :
    stg2Block s istep = Except.ok { s with
      f := Real.sqrt s.f, df := Real.log (Real.sqrt s.f) * 0.5 / s.bin,
      Hist := fun _ => 0, CountH := 0, STG := 3, CountPH := 0 } := by
  have hsch := stg2Scheme_flag2 s istep hff hist
  have hfv : (stg2Scheme s istep).f = Real.sqrt s.f := by rw [hsch]
  have hpfv : (stg2Scheme s istep).pfinFval = s.pfinFval := by rw [hsch]
  have hffv : (stg2Scheme s istep).f_flag = s.f_flag := by rw [hsch]
  unfold stg2Block
  rw [if_pos hS, if_pos hm,
      if_neg (show ¬ (stg2Scheme s istep).f ≤ 1 by rw [hfv]; linarith),
      if_pos (show (stg2Scheme s istep).f ≤ (stg2Scheme s istep).pfinFval ∧
          1 < (stg2Scheme s istep).f_flag from
        ⟨by rw [hfv, hpfv]; exact hle, by rw [hffv, hff]; omega⟩)]
  rw [hsch]

/-- The stage-2 state on which the promotion claim is tested: `baseSt` with
`STG = 2`, the unconditional sqrt scheme (`f_flag = 2`), `f = 4`,
`pfinFval = 3` (from `baseSt`), `SWchk = 5` (from `baseSt`), `CountPH = 9`. -/
def c6St : St :=
  { baseSt with STG := 2, f_flag := 2, f := 4, CountPH := 9 }

/-- The state after `preMAIN` on `c6St` at step 10. -/
def c6U : St := { c6St with Count := 10, totCi := c6St.totCi + 1 }

/-- The state after the `Yval` update on `c6U` at `U = 2` (bin 3). -/
def c6T : St :=
  { c6U with curbin := 3, Y2 := yvalUpdate c6U.df c6U.T1 c6U.T2 3 c6U.Y2 }

theorem sqrt_four : Real.sqrt (4 : ℝ) = 2 := by
  rw [show (4 : ℝ) = 2 ^ 2 by norm_num]
  exact Real.sqrt_sq (by norm_num)

theorem c6_run :
    ∃ s', MAIN c6St 10 2 = Except.ok s' ∧ s'.f ≤ c6St.pfinFval ∧
      s'.STG = 3 ∧ s'.CountPH = 0 ∧ s'.SWchk = 5 ∧ s'.CountH = 0 ∧
      (∀ j, s'.Hist j = 0) := by
  have hpre : preMAIN c6St 10 = c6U := by
    rw [preMAIN_stg_lt3 c6St 10 (by decide)]
    rfl
  have hcr : cround ((2 : ℝ) / c6U.bin) = 2 := by
    show cround ((2 : ℝ) / 1) = 2
    rw [div_one]
    exact cround_two
  have hidx : cround ((2 : ℝ) / c6U.bin) - c6U.BinMin + 1 = 3 := by
    rw [hcr]
    decide
  have hY : Yval c6U 2 = Except.ok (c6T, 3) := by
    rw [Yval_ok c6U 2 (by rw [hidx]; decide) (by rw [hidx]; decide), hidx]
    rfl
  obtain ⟨hH1, hH2, hH3, hH4, hH5, hH6, hH7, hH8, hH9, hH10⟩ :=
    histPhase_frame c6T 2 3
  have hHS : (histPhase c6T 2 3).STG = 2 := by
    rw [hH1]
    rfl
  have hHff : (histPhase c6T 2 3).f_flag = 2 := by
    rw [hH4]
    rfl
  have hHT : (histPhase c6T 2 3).TSC2 = 10 := by
    rw [hH6]
    rfl
  have hHf : (histPhase c6T 2 3).f = 4 := by
    rw [hH2]
    rfl
  have hHSW : (histPhase c6T 2 3).SWchk = 5 := by
    rw [hH9]
    rfl
  have hHpf : (histPhase c6T 2 3).pfinFval = 3 := by
    rw [hH7]
    rfl
  have hU2 := stg2Block_flag2_promote (histPhase c6T 2 3) 10 hHS
    (by rw [hHT]; decide) hHff (by decide)
    (by rw [hHf, sqrt_four]; norm_num)
    (by rw [hHf, sqrt_four, hHpf]; norm_num)
  have hskip3 : stg3Block (histPhase c6T 2 3) 10 = histPhase c6T 2 3 :=
    stg3Block_skip _ 10 (by rw [hHS]; decide)
  have hY' : Yval (preMAIN c6St 10) 2 = Except.ok (c6T, 3) := by
    rw [hpre]
    exact hY
  have hU' : stg2Block (stg3Block (histPhase c6T 2 3) 10) 10
      = Except.ok { (histPhase c6T 2 3) with
          f := Real.sqrt (histPhase c6T 2 3).f,
          df := Real.log (Real.sqrt (histPhase c6T 2 3).f) * 0.5
            / (histPhase c6T 2 3).bin,
          Hist := fun _ => 0, CountH := 0, STG := 3, CountPH := 0 } := by
    rw [hskip3]
    exact hU2
  have hM := MAIN_eq_ok c6St 10 2 c6T 3 hY' _ hU'
  rw [stg1Block_skip _ 10 (by
    show (3 : ℤ) ≠ 1
    decide)] at hM
  refine ⟨_, hM, ?_, rfl, rfl, ?_, rfl, fun j => rfl⟩
  · show Real.sqrt (histPhase c6T 2 3).f ≤ c6St.pfinFval
    rw [hHf, sqrt_four]
    show (2 : ℝ) ≤ 3
    norm_num
  · show (histPhase c6T 2 3).SWchk = 5
    exact hHSW

/-- C6 counterexample: on `c6St` (stage 2, sqrt scheme `f_flag = 2`,
`f = 4`, `pfinFval = 3`, `SWchk = 5`) the step-10 f-update leaves
`f = 2 ≤ pfinFval`, and the step promotes `STG ← 3` and resets
`CountPH ← 0` — but `SWchk` stays 5, not 1 as the claim (which asserts
`SWchk ← 1` for every scheme) requires. -/
theorem stmd_stage2_promotion_cex :
    c6St.STG = 2 ∧ c6St.f_flag = 2 ∧ (10 : ℤ) % c6St.TSC2 = 0 ∧
    getF (MAIN c6St 10 2) ≤ c6St.pfinFval ∧ getSTG (MAIN c6St 10 2) = 3 ∧
    getCountPH (MAIN c6St 10 2) = 0 ∧ getSWchk (MAIN c6St 10 2) = 5 ∧
    getSWchk (MAIN c6St 10 2) ≠ 1 := by
  obtain ⟨s', hM, h1, h2, h3, h4, h5, h6⟩ := c6_run
  rw [hM]
  unfold getF getSTG getCountPH getSWchk
  exact ⟨rfl, rfl, by decide, h1, h2, h3, h4, show s'.SWchk ≠ 1 by omega⟩

/-- C6 witness: the amended statement instantiated on the `c6St` run. -/
theorem stmd_stage2_promotion_witness :
    c6St.STG = 2 ∧ (10 : ℤ) % c6St.TSC2 = 0 ∧
    (∃ s', MAIN c6St 10 2 = Except.ok s' ∧ s'.f ≤ c6St.pfinFval ∧
      (1 < c6St.f_flag → s'.STG = 3 ∧ s'.CountPH = 0 ∧
        s'.SWchk = c6St.SWchk)) := by
  obtain ⟨s', hM, h1, _, _, _, _, _⟩ := c6_run
  exact ⟨rfl, by decide, s', hM, h1,
    (stmd_stage2_promotion c6St 10 2 s' rfl (by decide) hM h1).2⟩

/-- The production-stage state on which the per-step recording is tested:
`baseSt` with `STG = 3` (stage CONVERGE, so `STG >= 3` recording applies)
and the sqrt scheme. -/
def c4St : St := { baseSt with STG := 3, f_flag := 2 }

/-- The state after `preMAIN` on `c4St` at step 7. -/
def c4U : St := { c4St with Count := 7, totCi := c4St.totCi + 1,
                            CountPH := c4St.CountPH + 1 }

/-- The state after the `Yval` update on `c4U` at `U = 2` (bin 3). -/
def c4T : St :=
  { c4U with curbin := 3, Y2 := yvalUpdate c4U.df c4U.T1 c4U.T2 3 c4U.Y2 }

/-- C4 (code bug): one `MAIN` step at stage 3 increments `Hist[CurBin]`,
`Htot[CurBin]`, `PROH[CurBin]` and `CountH` by exactly 1 — but `CountPH` by
2, because fix_stmd.cpp increments it both at line 807 and at line 836.
Here `c4St` starts with all counters 0; after one step at `U = 2` (bin 3,
step 7 so that no TSC2 maintenance runs) `CountPH = 2`, not 1. -/
theorem stmd_countph_double_increment :
    c4St.STG = 3 ∧ c4St.CountPH = 0 ∧
    getHist (MAIN c4St 7 2) 3 = 1 ∧ getHtot (MAIN c4St 7 2) 3 = 1 ∧
    getPROH (MAIN c4St 7 2) 3 = 1 ∧ getCountH (MAIN c4St 7 2) = 1 ∧
    getCountPH (MAIN c4St 7 2) = 2 := by
  have hpre : preMAIN c4St 7 = c4U := by
    rw [preMAIN_stg_ge3 c4St 7 (by decide)]
    rfl
  have hcr : cround ((2 : ℝ) / c4U.bin) = 2 := by
    show cround ((2 : ℝ) / 1) = 2
    rw [div_one]
    exact cround_two
  have hidx : cround ((2 : ℝ) / c4U.bin) - c4U.BinMin + 1 = 3 := by
    rw [hcr]
    decide
  have hY : Yval c4U 2 = Except.ok (c4T, 3) := by
    rw [Yval_ok c4U 2 (by rw [hidx]; decide) (by rw [hidx]; decide), hidx]
    rfl
  have hY' : Yval (preMAIN c4St 7) 2 = Except.ok (c4T, 3) := by
    rw [hpre]
    exact hY
  obtain ⟨hH1, hH2, hH3, hH4, hH5, hH6, hH7, hH8, hH9, hH10⟩ :=
    histPhase_frame c4T 2 3
  have hHS : (histPhase c4T 2 3).STG = 3 := by
    rw [hH1]
    rfl
  have hHT : (histPhase c4T 2 3).TSC2 = 10 := by
    rw [hH6]
    rfl
  have hskip3 : stg3Block (histPhase c4T 2 3) 7 = histPhase c4T 2 3 :=
    stg3Block_offstep _ 7 (by rw [hHT]; decide)
  have hU' : stg2Block (stg3Block (histPhase c4T 2 3) 7) 7
      = Except.ok (histPhase c4T 2 3) := by
    rw [hskip3]
    exact stg2Block_skip _ 7 (by rw [hHS]; decide)
  have hM := MAIN_eq_ok c4St 7 2 c4T 3 hY' _ hU'
  rw [stg1Block_skip _ 7 (by rw [hHS]; decide)] at hM
  rw [hM]
  unfold getHist getHtot getPROH getCountH getCountPH
  refine ⟨rfl, rfl, ?_, ?_, ?_, ?_, ?_⟩ <;> decide

/-- The production (stage-4) state on which the C10 claim is tested:
`baseSt` with `STG = 4`, `f_flag = 2`, `f = 1`, `df = 0`. -/
def c10St : St := { baseSt with STG := 4, f_flag := 2, f := 1, df := 0 }

/-- C10 witness: on `c10St` at step 10 (a TSC2 multiple) the window is
zeroed and `CountH` reset while `f` and `df` are unchanged. -/
theorem stmd_stage4_window_reset_witness :
    c10St.STG = 4 ∧ 1 < c10St.f_flag ∧ (10 : ℤ) % c10St.TSC2 = 0 ∧
    c10St.df = Real.log c10St.f * 0.5 / c10St.bin ∧
    1 ≤ cround (2 / c10St.bin) - c10St.BinMin + 1 ∧
    cround (2 / c10St.bin) - c10St.BinMin + 1 ≤ c10St.N - 1 ∧
    (∃ s', MAIN c10St 10 2 = Except.ok s' ∧ (∀ j, s'.Hist j = 0) ∧
      s'.CountH = 0 ∧ s'.f = c10St.f ∧ s'.df = c10St.df ∧ s'.STG = 4) := by
  have hdf : c10St.df = Real.log c10St.f * 0.5 / c10St.bin := by
    show (0 : ℝ) = Real.log 1 * 0.5 / 1
    rw [Real.log_one]
    norm_num
  have hcr : cround ((2 : ℝ) / c10St.bin) = 2 := by
    show cround ((2 : ℝ) / 1) = 2
    rw [div_one]
    exact cround_two
  have hlo : 1 ≤ cround ((2 : ℝ) / c10St.bin) - c10St.BinMin + 1 := by
    rw [hcr]
    decide
  have hhi : cround ((2 : ℝ) / c10St.bin) - c10St.BinMin + 1 ≤ c10St.N - 1 := by
    rw [hcr]
    decide
  exact ⟨rfl, by decide, by decide, hdf, hlo, hhi,
    stmd_stage4_window_reset c10St 10 2 rfl (by decide) (by decide) hdf
      hlo hhi⟩

/-- C9 witness: walker A in stage 1, walker B in stage 2, both energies `0`
inside both windows `[-1, 1]`, Boltzmann draw accepting: still rejected. -/
theorem stmd_exchange_stage_gate_witness :
    ((-1 : ℝ) ≤ 0 ∧ (0 : ℝ) ≤ 1) ∧ ((-1 : ℝ) ≤ 0 ∧ (0 : ℝ) ≤ 1) ∧
    ((1 : ℤ) = 1 ∨ (2 : ℤ) = 1) ∧
    ¬ temperStmdAccept 1 2 0 0 (-1) 1 (-1) 1 True :=
  ⟨⟨by norm_num, by norm_num⟩, ⟨by norm_num, by norm_num⟩, Or.inl rfl,
   stmd_exchange_stage_gate 1 2 0 0 (-1) 1 (-1) 1 True
     ⟨by norm_num, by norm_num⟩ ⟨by norm_num, by norm_num⟩ (Or.inl rfl)⟩

theorem getD_append_right_len (l₁ l₂ : List ℝ) (k : ℕ) (d : ℝ) :
    (l₁ ++ l₂).getD (l₁.length + k) d = l₂.getD k d := by
  induction l₁ with
  | nil => rw [List.nil_append, List.length_nil, Nat.zero_add]
  | cons a t ih =>
    show (a :: (t ++ l₂)).getD (t.length + 1 + k) d = l₂.getD k d
    rw [show t.length + 1 + k = (t.length + k) + 1 by omega,
      List.getD_cons_succ]
    exact ih

theorem getD_append_left_len (l₁ l₂ : List ℝ) (k : ℕ) (d : ℝ)
    (h : k < l₁.length) :
    (l₁ ++ l₂).getD k d = l₁.getD k d := by
  induction l₁ generalizing k with
  | nil => simp at h
  | cons a t ih =>
    cases k with
    | zero => rfl
    | succ n =>
      show (a :: (t ++ l₂)).getD (n + 1) d = (a :: t).getD (n + 1) d
      rw [List.getD_cons_succ, List.getD_cons_succ]
      exact ih n (Nat.lt_of_succ_lt_succ h)

theorem map_range_getD (g : ℕ → ℝ) (n k : ℕ) (h : k < n) :
    ((List.range n).map g).getD k 0 = g k := by
  rw [List.getD_eq_getElem?_getD, List.getElem?_map, List.getElem?_range h]
  rfl

theorem orestList_length (s : St) :
    (orestList s).length = 13 + 3 * s.N.toNat := by
  simp only [orestList, orestScalars, List.length_append, List.length_map,
    List.length_range, List.length_cons, List.length_nil]
  omega

theorem orestList_getD_arrays (s : St) (i : ℤ) (h0 : 0 ≤ i) (h1 : i < s.N) :
    (orestList s).getD (13 + i.toNat) 0 = s.Y2 i ∧
    (orestList s).getD (13 + s.N.toNat + i.toNat) 0 = ((s.Htot i : ℤ) : ℝ) ∧
    (orestList s).getD (13 + 2 * s.N.toNat + i.toNat) 0
      = ((s.PROH i : ℤ) : ℝ) := by
  have hiN : i.toNat < s.N.toNat := by omega
  have hYlen : ((List.range s.N.toNat).map fun k : ℕ => s.Y2 (k : ℤ)).length
      = s.N.toNat := by simp
  have hHlen : ((List.range s.N.toNat).map
      fun k : ℕ => ((s.Htot (k : ℤ) : ℤ) : ℝ)).length = s.N.toNat := by simp
  have hcast : ((i.toNat : ℕ) : ℤ) = i := Int.toNat_of_nonneg h0
  refine ⟨?_, ?_, ?_⟩
  · calc (orestList s).getD (13 + i.toNat) 0
        = (((List.range s.N.toNat).map fun k : ℕ => s.Y2 (k : ℤ)) ++
            (((List.range s.N.toNat).map fun k : ℕ => ((s.Htot (k : ℤ) : ℤ) : ℝ))
              ++ ((List.range s.N.toNat).map
                fun k : ℕ => ((s.PROH (k : ℤ) : ℤ) : ℝ)))).getD i.toNat 0 :=
          getD_append_right_len (orestScalars s) _ i.toNat 0
      _ = ((List.range s.N.toNat).map fun k : ℕ => s.Y2 (k : ℤ)).getD i.toNat 0 :=
          getD_append_left_len _ _ i.toNat 0 (by rw [hYlen]; exact hiN)
      _ = s.Y2 ((i.toNat : ℕ) : ℤ) := map_range_getD _ _ _ hiN
      _ = s.Y2 i := by rw [hcast]
  · rw [show 13 + s.N.toNat + i.toNat = 13 + (s.N.toNat + i.toNat) by omega]
    have h2 := getD_append_right_len
      ((List.range s.N.toNat).map fun k : ℕ => s.Y2 (k : ℤ))
      (((List.range s.N.toNat).map fun k : ℕ => ((s.Htot (k : ℤ) : ℤ) : ℝ))
        ++ ((List.range s.N.toNat).map fun k : ℕ => ((s.PROH (k : ℤ) : ℤ) : ℝ)))
      i.toNat 0
    rw [hYlen] at h2
    calc (orestList s).getD (13 + (s.N.toNat + i.toNat)) 0
        = (((List.range s.N.toNat).map fun k : ℕ => s.Y2 (k : ℤ)) ++
            (((List.range s.N.toNat).map fun k : ℕ => ((s.Htot (k : ℤ) : ℤ) : ℝ))
              ++ ((List.range s.N.toNat).map
                fun k : ℕ => ((s.PROH (k : ℤ) : ℤ) : ℝ)))).getD
            (s.N.toNat + i.toNat) 0 :=
          getD_append_right_len (orestScalars s) _ (s.N.toNat + i.toNat) 0
      _ = (((List.range s.N.toNat).map fun k : ℕ => ((s.Htot (k : ℤ) : ℤ) : ℝ))
            ++ ((List.range s.N.toNat).map
              fun k : ℕ => ((s.PROH (k : ℤ) : ℤ) : ℝ))).getD i.toNat 0 := h2
      _ = ((List.range s.N.toNat).map
            fun k : ℕ => ((s.Htot (k : ℤ) : ℤ) : ℝ)).getD i.toNat 0 :=
          getD_append_left_len _ _ i.toNat 0 (by rw [hHlen]; exact hiN)
      _ = ((s.Htot ((i.toNat : ℕ) : ℤ) : ℤ) : ℝ) := map_range_getD _ _ _ hiN
      _ = ((s.Htot i : ℤ) : ℝ) := by rw [hcast]
  · rw [show 13 + 2 * s.N.toNat + i.toNat
        = 13 + (s.N.toNat + (s.N.toNat + i.toNat)) by omega]
    have h2 := getD_append_right_len
      ((List.range s.N.toNat).map fun k : ℕ => s.Y2 (k : ℤ))
      (((List.range s.N.toNat).map fun k : ℕ => ((s.Htot (k : ℤ) : ℤ) : ℝ))
        ++ ((List.range s.N.toNat).map fun k : ℕ => ((s.PROH (k : ℤ) : ℤ) : ℝ)))
      (s.N.toNat + i.toNat) 0
    rw [hYlen] at h2
    have h3 := getD_append_right_len
      ((List.range s.N.toNat).map fun k : ℕ => ((s.Htot (k : ℤ) : ℤ) : ℝ))
      ((List.range s.N.toNat).map fun k : ℕ => ((s.PROH (k : ℤ) : ℤ) : ℝ))
      i.toNat 0
    rw [hHlen] at h3
    calc (orestList s).getD (13 + (s.N.toNat + (s.N.toNat + i.toNat))) 0
        = (((List.range s.N.toNat).map fun k : ℕ => s.Y2 (k : ℤ)) ++
            (((List.range s.N.toNat).map fun k : ℕ => ((s.Htot (k : ℤ) : ℤ) : ℝ))
              ++ ((List.range s.N.toNat).map
                fun k : ℕ => ((s.PROH (k : ℤ) : ℤ) : ℝ)))).getD
            (s.N.toNat + (s.N.toNat + i.toNat)) 0 :=
          getD_append_right_len (orestScalars s) _
            (s.N.toNat + (s.N.toNat + i.toNat)) 0
      _ = (((List.range s.N.toNat).map fun k : ℕ => ((s.Htot (k : ℤ) : ℤ) : ℝ))
            ++ ((List.range s.N.toNat).map
              fun k : ℕ => ((s.PROH (k : ℤ) : ℤ) : ℝ))).getD
            (s.N.toNat + i.toNat) 0 := h2
      _ = ((List.range s.N.toNat).map
            fun k : ℕ => ((s.PROH (k : ℤ) : ℤ) : ℝ)).getD i.toNat 0 := h3
      _ = ((s.PROH ((i.toNat : ℕ) : ℤ) : ℤ) : ℝ) := map_range_getD _ _ _ hiN
      _ = ((s.PROH i : ℤ) : ℝ) := by rw [hcast]

/-- Reading the exact value list `orestList s` into a freshly initialized
engine restores every written field (helper for the round trip through the
formatted blob). -/
theorem readOrest_orestList_spec (s : St) (p : Params)
    (hNeq : (freshInit p).N = s.N) :
    ∃ r, readOrest (freshInit p) (orestList s) = Except.ok r ∧
      r.STG = s.STG ∧ r.f = s.f ∧
      (∀ i, 0 ≤ i → i < s.N → r.Y2 i = s.Y2 i) ∧
      (∀ i, 0 ≤ i → i < s.N → r.Htot i = s.Htot i) ∧
      (∀ i, 0 ≤ i → i < s.N → r.PROH i = s.PROH i) ∧
      r.SWf = s.SWf ∧ r.SWfold = s.SWfold ∧ r.SWchk = s.SWchk ∧
      r.Count = s.Count ∧ r.totCi = s.totCi ∧ r.CountPH = s.CountPH ∧
      r.T1 = s.T1 ∧ r.T2 = s.T2 ∧ r.CountH = s.CountH ∧
      (∀ i, r.Hist i = 0) := by
  have hlen : ¬ (orestList s).length < 3 * (freshInit p).N.toNat + 13 := by
    rw [orestList_length, hNeq]
    omega
  unfold readOrest
  rw [if_neg hlen]
  refine ⟨_, rfl, ?_, rfl, ?_, ?_, ?_, ?_, ?_, ?_, ?_, ?_, ?_, rfl, rfl,
    ?_, fun i => rfl⟩
  · exact truncToInt_intCast s.STG
  · intro i hi0 hi1
    show (if 0 ≤ i ∧ i < (freshInit p).N
        then (orestList s).getD (13 + i.toNat) 0
        else (freshInit p).Y2 i) = s.Y2 i
    rw [if_pos ⟨hi0, by rw [hNeq]; exact hi1⟩]
    exact (orestList_getD_arrays s i hi0 hi1).1
  · intro i hi0 hi1
    show (if 0 ≤ i ∧ i < (freshInit p).N
        then truncToInt ((orestList s).getD
          (13 + (freshInit p).N.toNat + i.toNat) 0)
        else (freshInit p).Htot i) = s.Htot i
    rw [if_pos ⟨hi0, by rw [hNeq]; exact hi1⟩, hNeq,
      (orestList_getD_arrays s i hi0 hi1).2.1]
    exact truncToInt_intCast (s.Htot i)
  · intro i hi0 hi1
    show (if 0 ≤ i ∧ i < (freshInit p).N
        then truncToInt ((orestList s).getD
          (13 + 2 * (freshInit p).N.toNat + i.toNat) 0)
        else (freshInit p).PROH i) = s.PROH i
    rw [if_pos ⟨hi0, by rw [hNeq]; exact hi1⟩, hNeq,
      (orestList_getD_arrays s i hi0 hi1).2.2]
    exact truncToInt_intCast (s.PROH i)
  · exact truncToInt_intCast s.SWf
  · exact truncToInt_intCast s.SWfold
  · exact truncToInt_intCast s.SWchk
  · exact truncToInt_intCast s.Count
  · exact truncToInt_intCast s.totCi
  · exact truncToInt_intCast s.CountPH
  · exact truncToInt_intCast s.CountH

/-- The `%f` fixed-point formatting `write_orest` applies to every value
after `STG` (fix_stmd.cpp lines 580-623): the printed string keeps 6 decimal
places, so the persisted value is the nearest multiple of `10⁻⁶` of the
written value (a decimal tie is modelled away from zero, as in `cround`);
re-parsing the decimal string on restart is exact in this real-valued
model. `STG` itself is printed with `%d` (line 579), and on integer values
`fmt6` is the identity, so applying it uniformly is faithful. -/
def fmt6 (x : ℝ) : ℝ :=
  (cround (x * 1000000) : ℝ) / 1000000

theorem cround_intCast (n : ℤ) : cround ((n : ℤ) : ℝ) = n := by
  unfold cround
  split_ifs with h
  · exact Int.floor_eq_iff.mpr ⟨by linarith, by linarith⟩
  · have hneg : ⌊-((n : ℤ) : ℝ) + 1 / 2⌋ = -n := by
      rw [show -((n : ℤ) : ℝ) = ((-n : ℤ) : ℝ) by push_cast; ring]
      exact Int.floor_eq_iff.mpr
        ⟨by push_cast; linarith, by push_cast; linarith⟩
    rw [hneg]
    omega

theorem fmt6_intCast (n : ℤ) : fmt6 ((n : ℤ) : ℝ) = ((n : ℤ) : ℝ) := by
  unfold fmt6
  rw [show ((n : ℤ) : ℝ) * 1000000 = ((n * 1000000 : ℤ) : ℝ) by
      push_cast; ring,
    cround_intCast]
  push_cast
  rw [mul_div_assoc]
  norm_num

/-- The restart blob as actually persisted by `write_orest`: every value of
the ordered list passed through the 6-decimal `%f` formatting. -/
def orestBlob (s : St) : List ℝ :=
  (orestList s).map fmt6

/-- The state whose exact value list coincides with the formatted blob of
`s`: the real-valued fields (`f`, `T1`, `T2`, `CTmin`, `CTmax`, `Y2`) are
rounded to 6 decimals, while the integer-valued fields pass through the
formatting unchanged. -/
def serRound (s : St) : St :=
  { s with
    f := fmt6 s.f
    T1 := fmt6 s.T1
    T2 := fmt6 s.T2
    CTmin := fmt6 s.CTmin
    CTmax := fmt6 s.CTmax
    Y2 := fun i => fmt6 (s.Y2 i) }

theorem orestBlob_eq (s : St) : orestBlob s = orestList (serRound s) := by
  unfold orestBlob orestList orestScalars serRound
  simp only [List.map_append, List.map_cons, List.map_nil, List.map_map,
    Function.comp_def, fmt6_intCast]

/-- C5 (amended): writing the restart blob of a state `s` — 13 scalars, then
`Y2[0..N-1]`, `Htot[0..N-1]`, `PROH[0..N-1]`, each value after `STG`
formatted with `%f` at 6 decimal places — and reloading it into a freshly
initialized engine with the same constructor inputs (hence the same bin
count) restores `STG`, `Htot`, `PROH` and the counters `SWf, SWfold, SWchk,
Count, totCi, CountPH, CountH` exactly, restores `f`, `Ŷ`, `T1`, `T2` to
the 6-decimal rounding of the written values (so bit-identity holds exactly
when those values are multiples of `10⁻⁶`, and fails otherwise: see the
counterexample), and leaves the reloaded `Hist` identically zero. -/
theorem stmd_restart_roundtrip (s : St) (p : Params)
    (hNeq : (freshInit p).N = s.N) :
    ∃ r, readOrest (freshInit p) (orestBlob s) = Except.ok r ∧
      r.STG = s.STG ∧ r.f = fmt6 s.f ∧
      (∀ i, 0 ≤ i → i < s.N → r.Y2 i = fmt6 (s.Y2 i)) ∧
      (∀ i, 0 ≤ i → i < s.N → r.Htot i = s.Htot i) ∧
      (∀ i, 0 ≤ i → i < s.N → r.PROH i = s.PROH i) ∧
      r.SWf = s.SWf ∧ r.SWfold = s.SWfold ∧ r.SWchk = s.SWchk ∧
      r.Count = s.Count ∧ r.totCi = s.totCi ∧ r.CountPH = s.CountPH ∧
      r.T1 = fmt6 s.T1 ∧ r.T2 = fmt6 s.T2 ∧ r.CountH = s.CountH ∧
      (∀ i, r.Hist i = 0) := by
  rw [orestBlob_eq]
  exact readOrest_orestList_spec (serRound s) p hNeq

theorem cround_four : cround 4 = 4 :=
  cround_eval 4 4 (by norm_num) (by norm_num) (by norm_num)

/-- Constructor inputs matching `baseSt`: energy window `[0, 4]` with
`Δ = 1`, so 5 bins. -/
def c5P : Params where
  Emin := 0
  Emax := 4
  binw := 1
  TL := 1
  TH := 2
  ST := 1
  initf := 0
  dFval3 := 1
  f_flag := 0
  TSC1 := 10
  TSC2 := 10

/-- C5 witness: the round trip on `baseSt` through a fresh engine built
from `c5P`. -/
theorem stmd_restart_roundtrip_witness :
    (freshInit c5P).N = baseSt.N ∧
    (∃ r, readOrest (freshInit c5P) (orestBlob baseSt) = Except.ok r ∧
      r.STG = baseSt.STG ∧ r.f = fmt6 baseSt.f ∧
      (∀ i, 0 ≤ i → i < baseSt.N → r.Y2 i = fmt6 (baseSt.Y2 i)) ∧
      (∀ i, 0 ≤ i → i < baseSt.N → r.Htot i = baseSt.Htot i) ∧
      (∀ i, 0 ≤ i → i < baseSt.N → r.PROH i = baseSt.PROH i) ∧
      r.SWf = baseSt.SWf ∧ r.SWfold = baseSt.SWfold ∧
      r.SWchk = baseSt.SWchk ∧ r.Count = baseSt.Count ∧
      r.totCi = baseSt.totCi ∧ r.CountPH = baseSt.CountPH ∧
      r.T1 = fmt6 baseSt.T1 ∧ r.T2 = fmt6 baseSt.T2 ∧
      r.CountH = baseSt.CountH ∧ (∀ i, r.Hist i = 0)) := by
  have hNeq : (freshInit c5P).N = baseSt.N := by
    show cround ((4 : ℝ) / 1) - cround ((0 : ℝ) / 1) + 1 = 5
    rw [div_one, zero_div, cround_four, cround_zero]
    decide
  exact ⟨hNeq, stmd_restart_roundtrip baseSt c5P hNeq⟩

/-- A state whose `f` is not a multiple of `10⁻⁶`: the `%f` formatting
truncates it, so the restart round trip cannot be bit-identical. -/
def c5Bad : St :=
  { baseSt with f := 1 + 1 / 10000000 }

/-- C5 counterexample to bit-identity as originally claimed: for a state
whose `f` is `1 + 10⁻⁷`, `write_orest` persists `1.000000` and the reloaded
engine's `f` is `1`, not `1 + 10⁻⁷`; the round trip through the formatted
blob is lossy. -/
theorem stmd_restart_bit_identity_cex :
    ∃ r, readOrest (freshInit c5P) (orestBlob c5Bad) = Except.ok r ∧
      r.f ≠ c5Bad.f := by
  have hNeq : (freshInit c5P).N = (serRound c5Bad).N := by
    show cround ((4 : ℝ) / 1) - cround ((0 : ℝ) / 1) + 1 = 5
    rw [div_one, zero_div, cround_four, cround_zero]
    decide
  obtain ⟨r, hok, h1, h2, hrest⟩ :=
    readOrest_orestList_spec (serRound c5Bad) c5P hNeq
  rw [← orestBlob_eq] at hok
  refine ⟨r, hok, ?_⟩
  rw [h2]
  show fmt6 (1 + 1 / 10000000 : ℝ) ≠ (1 + 1 / 10000000 : ℝ)
  have hval : fmt6 (1 + 1 / 10000000 : ℝ) = 1 := by
    unfold fmt6
    rw [show (1 + 1 / 10000000 : ℝ) * 1000000 = 1000000 + 1 / 10 by ring,
      cround_eval (1000000 + 1 / 10) 1000000 (by norm_num)
        (by push_cast; norm_num) (by push_cast; norm_num)]
    norm_num
  rw [hval]
  norm_num

end Stmd
